import Mathlib

/-!
Verification of the special-functions classification core
(`src/analysis/special_functions.rs` of the gir binding generator).

The Rust code is shallowly embedded: structures keep the fields the
analysis reads, `&mut` mutation becomes explicit value passing (a mutating
Rust function returning `bool` becomes a Lean function returning the
updated value paired with the `Bool`), and the `BTreeMap`s of the registry
become functions to `Option` with insert-as-override semantics.
-/

namespace SpecialFunctions

/-- Visibility of a generated binding. Modelled from the spec: the spec's
visibility set is {Public, Private, Hidden, Suppressed}; in the code the
Suppressed state is the `Comment` variant of `analysis::functions::Visibility`
(defined outside the given sources). -/
inductive Visibility
  | Public
  | Private
  | Hidden
  | Comment
deriving DecidableEq, Repr, Inhabited

/-- The `Type` enumeration of `special_functions.rs` (called `SType` here
because `Type` is reserved in Lean): Compare, Copy, Equal, Free, Ref,
Display, Unref, Hash. -/
inductive SType
  | Compare
  | Copy
  | Equal
  | Free
  | Ref
  | Display
  | Unref
  | Hash
deriving DecidableEq, Repr, Inhabited

/-- `impl FromStr for Type`: the fallible raw-name-to-kind parser.  The Rust
`Result` is modelled by `Option` (`Err` becomes `none`). -/
def SType.from_str : String → Option SType
  | "compare" => some .Compare
  | "copy" => some .Copy
  | "equal" => some .Equal
  | "free" => some .Free
  | "destroy" => some .Free
  | "is_equal" => some .Equal
  | "ref" => some .Ref
  | "ref_" => some .Ref
  | "unref" => some .Unref
  | "hash" => some .Hash
  | _ => none

/-- Library type identifiers.  Modelled from the spec: the code only compares
the return type against `TypeId::tid_utf8()` (the recognized string type);
`library.rs` is outside the given sources, so identifiers are abstracted to
`Nat` with one distinguished utf8 identifier. -/
abbrev TypeId := Nat

/-- The distinguished identifier of the recognized string type. -/
def TypeId.tid_utf8 : TypeId := 5

/-- `library::Transfer`: ownership transfer of a returned value.  Modelled
from the spec: {None, Full, Container}. -/
inductive Transfer
  | none
  | full
  | container
deriving DecidableEq, Repr, Inhabited

/-- Generation status of a function.  Modelled from the spec: the
generation-eligibility flag; the code calls `func.status.need_generate()`. -/
inductive GStatus
  | manual
  | generate
  | ignore
deriving DecidableEq, Repr, Inhabited

/-- `GStatus::need_generate`: only `generate` descriptors produce code. -/
def GStatus.need_generate : GStatus → Bool
  | .generate => true
  | _ => false

/-- `library::Type` as far as this analysis inspects it.  Modelled from the
spec: the type-context tag {Enumeration, Bitfield, Other}; the code only
tests `matches!(parent_type, LibType::Enumeration(_) | LibType::Bitfield(_))`. -/
inductive LibType
  | enumeration
  | bitfield
  | other
deriving DecidableEq, Repr, Inhabited

/-- `config::GObject`, restricted to the single field this analysis reads
(`config.rs` line 41). -/
structure GObject where
  trust_return_value_nullability : Bool
deriving DecidableEq, Repr, Inhabited

/-- Library versions are opaque to this analysis (stored and copied only);
modelled as `Nat`. -/
abbrev Version := Nat

/-- The return-value descriptor fields this analysis reads
(the `library::Parameter` behind `func.ret.parameter`). -/
structure RetParameter where
  typ : TypeId
  nullable : Bool
  transfer : Transfer
deriving DecidableEq, Repr, Inhabited

/-- `func.ret`: an optional return descriptor. -/
structure ReturnValue where
  parameter : Option RetParameter
deriving DecidableEq, Repr, Inhabited

/-- One C parameter, as far as this analysis reads it: whether it is the
instance parameter. -/
structure CParameter where
  instance_parameter : Bool
deriving DecidableEq, Repr, Inhabited

/-- `func.parameters`: the ordered C parameter list. -/
structure Parameters where
  c_parameters : List CParameter
deriving DecidableEq, Repr, Inhabited

/-- `analysis::functions::Info` (aliased `FuncInfo` in the Rust), restricted
to the fields `special_functions.rs` reads or writes. -/
structure FuncInfo where
  name : String
  glib_name : String
  parameters : Parameters
  ret : ReturnValue
  visibility : Visibility
  version : Option Version
  status : GStatus
deriving DecidableEq, Repr, Inhabited

/-- `TraitInfo`: the registry record for one operation kind. -/
structure TraitInfo where
  glib_name : String
  version : Option Version
deriving DecidableEq, Repr, Inhabited

/-- `FunctionType` (one variant today). -/
inductive FunctionType
  | StaticStringify
deriving DecidableEq, Repr, Inhabited

/-- `FunctionInfo`: the registry record for one stringify function. -/
structure FunctionInfo where
  type_ : FunctionType
  version : Option Version
deriving DecidableEq, Repr, Inhabited

/-- `BTreeMap::insert` semantics: point update, replacing any previous
binding of the key. -/
def mapInsert {α β : Type} [DecidableEq α] (m : α → Option β) (k : α) (v : β) :
    α → Option β :=
  fun x => if x = k then some v else m x

/-- `Infos`: the registry produced by `extract` — operation-kind traits and
stringify functions, both as key-value maps. -/
structure Infos where
  traits : SType → Option TraitInfo
  functions : String → Option FunctionInfo

/-- `Infos::default()`: both maps empty. -/
def Infos.default : Infos := ⟨fun _ => none, fun _ => none⟩

/-- Element of a function list at an index, with the `Inhabited` default out
of range (all list positions used by the code are in range). -/
def fnAt (fs : List FuncInfo) (i : Nat) : FuncInfo := (fs.get? i).getD default

/-- `visibility` (lines 220-227): the fixed visibility policy table. -/
def visibility : SType → Visibility
  | .Copy | .Free | .Ref | .Unref => .Hidden
  | .Hash | .Compare | .Equal => .Private
  | .Display => .Public

/-- `update_func` (lines 124-129): set the policy visibility unless the
function is suppressed (`Comment`); always report `true`.  The Rust `&mut`
argument becomes the first component of the result. -/
def update_func (func : FuncInfo) (type_ : SType) : FuncInfo × Bool :=
  (if func.visibility ≠ Visibility.Comment then
    { func with visibility := visibility type_ }
  else func, true)

/-- `is_stringify` (lines 90-122): accepts functions taking the instance as
single argument and returning a non-nullable utf8 string; renames
`to_string` to `to_str` and (outside enums/bitfields, when upstream
nullability is not trusted) forces the return non-nullable.  The Rust
`&mut FuncInfo` becomes the second component of the result; the borrowed
`ret` is carried alongside the function so that the final read
`!*ret.nullable` sees the mutation, as the Rust borrow does. -/
def is_stringify (func : FuncInfo) (parent_type : LibType) (obj : GObject) :
    Bool × FuncInfo :=
  if func.parameters.c_parameters.length ≠ 1 then (false, func)
  else if ¬ (func.parameters.c_parameters.getD 0 default).instance_parameter then
    (false, func)
  else
    match func.ret.parameter with
    | some ret =>
      if ret.typ ≠ TypeId.tid_utf8 then (false, func)
      else
        let fr : FuncInfo × RetParameter :=
          if func.name = "to_string" then
            let func1 : FuncInfo := { func with name := "to_str" }
            if ¬ obj.trust_return_value_nullability
                ∧ ¬ (parent_type = LibType.enumeration ∨ parent_type = LibType.bitfield) then
              let ret1 : RetParameter := { ret with nullable := false }
              ({ func1 with ret := ⟨some ret1⟩ }, ret1)
            else (func1, ret)
          else (func, ret)
        (!fr.2.nullable, fr.1)
    | none => (false, func)

/-- The mutable loop state of `extract`: the registry under construction,
the `has_copy` / `has_free` flags and the deferred destroy candidate. -/
structure ExtractState where
  specials : Infos
  has_copy : Bool
  has_free : Bool
  destroy : Option (String × Nat)

/-- One iteration of the `for (pos, func)` loop of `extract`
(lines 137-200): returns the mutated function and the updated state. -/
def extract_step (parent_type : LibType) (obj : GObject) (pos : Nat)
    (func0 : FuncInfo) (st : ExtractState) : FuncInfo × ExtractState :=
  let r := is_stringify func0 parent_type obj
  let func := r.2
  if r.1 then
    let return_transfer_none : Bool :=
      match func.ret.parameter with
      | some ret => decide (ret.transfer = Transfer.none)
      | none => false
    let returns_static_ref : Bool :=
      return_transfer_none
        && (decide (parent_type = LibType.enumeration)
            || decide (parent_type = LibType.bitfield))
        && func.status.need_generate
    let sp1 : Infos :=
      if returns_static_ref then
        { st.specials with
          functions := mapInsert st.specials.functions func.glib_name
            ⟨FunctionType.StaticStringify, func.version⟩ }
      else st.specials
    let sp2 : Infos :=
      if func.name = "to_string" ∨ func.name = "to_str" ∨ func.name = "name"
          ∨ func.name = "get_name" then
        { sp1 with
          traits := mapInsert sp1.traits SType.Display ⟨func.glib_name, func.version⟩ }
      else sp1
    (func, { st with specials := sp2 })
  else
    match SType.from_str func.name with
    | some type_ =>
      if func.name = "destroy" then
        (func, { st with destroy := some (func.glib_name, pos) })
      else
        let u := update_func func type_
        if u.2 = false then (u.1, st)
        else
          let st1 : ExtractState :=
            if u.1.name = "copy" then { st with has_copy := true }
            else if u.1.name = "free" then { st with has_free := true }
            else st
          (u.1,
           { st1 with specials :=
              { st1.specials with
                traits := mapInsert st1.specials.traits type_
                  ⟨u.1.glib_name, u.1.version⟩ } })
    | none => (func, st)

/-- The classification loop of `extract`, with explicit position counter. -/
def extract_go (parent_type : LibType) (obj : GObject) :
    List FuncInfo → Nat → ExtractState → List FuncInfo × ExtractState
  | [], _, st => ([], st)
  | f :: fs, pos, st =>
    let r := extract_step parent_type obj pos f st
    let rest := extract_go parent_type obj fs (pos + 1) r.2
    (r.1 :: rest.1, rest.2)

/-- `extract` (lines 131-218): the classification pass followed by the
deferred destroy resolution.  Returns the mutated function list and the
registry.  The Rust `functions[pos]` index in phase two is modelled with
`get?`; the `none` arm is unreachable because recorded positions are in
range. -/
def extract (functions : List FuncInfo) (parent_type : LibType) (obj : GObject) :
    List FuncInfo × Infos :=
  let r := extract_go parent_type obj functions 0
    ⟨Infos.default, false, false, Option.none⟩
  let fs := r.1
  let st := r.2
  if st.has_copy ∧ ¬ st.has_free then
    match st.destroy with
    | some gp =>
      match fs.get? gp.2 with
      | some func =>
        let func2 := (update_func func SType.Free).1
        (fs.set gp.2 func2,
         { st.specials with
            traits := mapInsert st.specials.traits SType.Free ⟨gp.1, func2.version⟩ })
      | none => (fs, st.specials)
    | none => (fs, st.specials)
  else (fs, st.specials)

/-- The `iter_mut().find(..)` plus assignment inside `unhide`: set the first
non-suppressed function with the given raw name to `Public`. -/
def unhide_set (glib_name : String) : List FuncInfo → List FuncInfo
  | [] => []
  | f :: fs =>
    if f.glib_name = glib_name ∧ f.visibility ≠ Visibility.Comment then
      { f with visibility := Visibility.Public } :: fs
    else
      f :: unhide_set glib_name fs

/-- `unhide` (lines 230-239): promote to `Public` the first non-suppressed
function whose raw name matches the registry entry for the kind, if any. -/
def unhide (functions : List FuncInfo) (specials : Infos) (type_ : SType) :
    List FuncInfo :=
  match specials.traits type_ with
  | some ti => unhide_set ti.glib_name functions
  | none => functions

/-! ### Derived notions used to state properties of the pass -/

/-- The function value produced for one list element by one loop iteration
(the first component of `extract_step`, which is independent of the loop
state and position). -/
def extract_fn (parent_type : LibType) (obj : GObject) (f : FuncInfo) : FuncInfo :=
  (extract_step parent_type obj 0 f ⟨Infos.default, false, false, Option.none⟩).1

/-- A function that the loop classifies through the operation vocabulary
under kind `t`: rejected by the stringify detector, name parsing to `t`,
and not the deferred name `destroy`. -/
def classifiesTo (parent_type : LibType) (obj : GObject) (f : FuncInfo) (t : SType) :
    Bool :=
  let r := is_stringify f parent_type obj
  !r.1 && decide (SType.from_str r.2.name = some t) && !(decide (r.2.name = "destroy"))

/-- A function whose iteration sets the `has_copy` flag. -/
def foundCopy (parent_type : LibType) (obj : GObject) (f : FuncInfo) : Bool :=
  let r := is_stringify f parent_type obj
  !r.1 && decide (r.2.name = "copy")

/-- A function whose iteration sets the `has_free` flag. -/
def foundFree (parent_type : LibType) (obj : GObject) (f : FuncInfo) : Bool :=
  let r := is_stringify f parent_type obj
  !r.1 && decide (r.2.name = "free")

/-- A function whose iteration records the deferred destroy candidate. -/
def defersDestroy (parent_type : LibType) (obj : GObject) (f : FuncInfo) : Bool :=
  let r := is_stringify f parent_type obj
  !r.1 && decide (r.2.name = "destroy")

/-- Lines 139-143 of `extract`: the return value transfers no ownership. -/
def return_transfer_none (f : FuncInfo) : Bool :=
  match f.ret.parameter with
  | some ret => decide (ret.transfer = Transfer.none)
  | none => false

/-- A function whose iteration inserts a `StaticStringify` registry entry:
accepted by the stringify detector with a no-transfer return, in an
enumeration or bitfield context, and eligible for generation. -/
def staticStringifyAt (parent_type : LibType) (obj : GObject) (f : FuncInfo) :
    Bool :=
  let r := is_stringify f parent_type obj
  r.1 && return_transfer_none r.2
    && (decide (parent_type = LibType.enumeration)
        || decide (parent_type = LibType.bitfield))
    && r.2.status.need_generate

/-- Frame relation: every descriptor field other than the display name, the
return nullable flag and the visibility agrees between `f` and `g`. -/
def SameFrame (f g : FuncInfo) : Prop :=
  g.glib_name = f.glib_name
    ∧ g.version = f.version
    ∧ g.parameters = f.parameters
    ∧ g.status = f.status
    ∧ g.ret.parameter.map RetParameter.typ = f.ret.parameter.map RetParameter.typ
    ∧ g.ret.parameter.map RetParameter.transfer
        = f.ret.parameter.map RetParameter.transfer

/-! ### Shape of the stringify detector mutation -/

/-- The stringify detector leaves a function unchanged, or renames a
`to_string` function, or renames it and forces its return non-nullable. -/
theorem is_stringify_snd_cases (f : FuncInfo) (pt : LibType) (obj : GObject) :
    (is_stringify f pt obj).2 = f
    ∨ (f.name = "to_string"
        ∧ ((is_stringify f pt obj).2 = { f with name := "to_str" }
          ∨ ∃ ret, f.ret.parameter = some ret
              ∧ (is_stringify f pt obj).2
                  = { f with
                      name := "to_str"
                      ret := ⟨some { ret with nullable := false }⟩ })) := by
  simp only [is_stringify]
  split
  · exact Or.inl rfl
  split
  · exact Or.inl rfl
  split
  case h_2 => exact Or.inl rfl
  case h_1 ret heq =>
    split
    · exact Or.inl rfl
    split
    case isFalse => exact Or.inl rfl
    case isTrue hname =>
      split
      · exact Or.inr ⟨hname, Or.inr ⟨ret, heq, rfl⟩⟩
      · exact Or.inr ⟨hname, Or.inl rfl⟩

/-- A function not named `to_string` passes through the detector unchanged. -/
theorem is_stringify_snd_of_ne (f : FuncInfo) (pt : LibType) (obj : GObject)
    (h : f.name ≠ "to_string") : (is_stringify f pt obj).2 = f := by
  rcases is_stringify_snd_cases f pt obj with hc | ⟨hn, _⟩
  · exact hc
  · exact absurd hn h

/-- The detector output name is the original name or the rename `to_str`. -/
theorem is_stringify_snd_name (f : FuncInfo) (pt : LibType) (obj : GObject) :
    (is_stringify f pt obj).2.name = f.name
    ∨ (f.name = "to_string" ∧ (is_stringify f pt obj).2.name = "to_str") := by
  rcases is_stringify_snd_cases f pt obj with hc | ⟨hn, hc | ⟨ret, _, hc⟩⟩
  · exact Or.inl (by rw [hc])
  · exact Or.inr ⟨hn, by rw [hc]⟩
  · exact Or.inr ⟨hn, by rw [hc]⟩

/-- The detector preserves the raw name. -/
theorem is_stringify_glib (f : FuncInfo) (pt : LibType) (obj : GObject) :
    (is_stringify f pt obj).2.glib_name = f.glib_name := by
  rcases is_stringify_snd_cases f pt obj with hc | ⟨_, hc | ⟨ret, _, hc⟩⟩ <;> rw [hc]

/-- The detector preserves the min version. -/
theorem is_stringify_version (f : FuncInfo) (pt : LibType) (obj : GObject) :
    (is_stringify f pt obj).2.version = f.version := by
  rcases is_stringify_snd_cases f pt obj with hc | ⟨_, hc | ⟨ret, _, hc⟩⟩ <;> rw [hc]

/-- The detector preserves the generation status. -/
theorem is_stringify_status (f : FuncInfo) (pt : LibType) (obj : GObject) :
    (is_stringify f pt obj).2.status = f.status := by
  rcases is_stringify_snd_cases f pt obj with hc | ⟨_, hc | ⟨ret, _, hc⟩⟩ <;> rw [hc]

/-- The detector preserves the visibility. -/
theorem is_stringify_visibility (f : FuncInfo) (pt : LibType) (obj : GObject) :
    (is_stringify f pt obj).2.visibility = f.visibility := by
  rcases is_stringify_snd_cases f pt obj with hc | ⟨_, hc | ⟨ret, _, hc⟩⟩ <;> rw [hc]

/-- The detector preserves the parameter list. -/
theorem is_stringify_parameters (f : FuncInfo) (pt : LibType) (obj : GObject) :
    (is_stringify f pt obj).2.parameters = f.parameters := by
  rcases is_stringify_snd_cases f pt obj with hc | ⟨_, hc | ⟨ret, _, hc⟩⟩ <;> rw [hc]

/-- The detector preserves the ownership transfer of the return. -/
theorem is_stringify_transfer (f : FuncInfo) (pt : LibType) (obj : GObject) :
    (is_stringify f pt obj).2.ret.parameter.map RetParameter.transfer
      = f.ret.parameter.map RetParameter.transfer := by
  rcases is_stringify_snd_cases f pt obj with hc | ⟨_, hc | ⟨ret, heq, hc⟩⟩ <;> rw [hc]
  simp [heq]

/-- The detector preserves the type of the return. -/
theorem is_stringify_typ (f : FuncInfo) (pt : LibType) (obj : GObject) :
    (is_stringify f pt obj).2.ret.parameter.map RetParameter.typ
      = f.ret.parameter.map RetParameter.typ := by
  rcases is_stringify_snd_cases f pt obj with hc | ⟨_, hc | ⟨ret, heq, hc⟩⟩ <;> rw [hc]
  simp [heq]

/-- The detector mutation respects the frame relation. -/
theorem is_stringify_frame (f : FuncInfo) (pt : LibType) (obj : GObject) :
    SameFrame f (is_stringify f pt obj).2 :=
  ⟨is_stringify_glib f pt obj, is_stringify_version f pt obj,
   is_stringify_parameters f pt obj, is_stringify_status f pt obj,
   is_stringify_typ f pt obj, is_stringify_transfer f pt obj⟩

/-! ### Shape of `update_func` -/

/-- `update_func` always reports `true`. -/
theorem update_func_snd (f : FuncInfo) (t : SType) : (update_func f t).2 = true := rfl

/-- `update_func` only rewrites the visibility field. -/
theorem update_func_fst (f : FuncInfo) (t : SType) :
    (update_func f t).1
      = (if f.visibility ≠ Visibility.Comment then
          { f with visibility := visibility t }
        else f) := rfl

/-- `update_func` on a non-suppressed function sets the policy visibility. -/
theorem update_func_vis (f : FuncInfo) (t : SType)
    (h : f.visibility ≠ Visibility.Comment) :
    (update_func f t).1 = { f with visibility := visibility t } := by
  rw [update_func_fst, if_pos h]

/-- `update_func` on a suppressed function is the identity. -/
theorem update_func_comment (f : FuncInfo) (t : SType)
    (h : f.visibility = Visibility.Comment) :
    (update_func f t).1 = f := by
  rw [update_func_fst, if_neg (by simp [h])]

/-- `update_func` respects the frame relation. -/
theorem update_func_frame (f : FuncInfo) (t : SType) :
    SameFrame f (update_func f t).1 := by
  rw [update_func_fst]
  split <;> exact ⟨rfl, rfl, rfl, rfl, rfl, rfl⟩

/-- `update_func` preserves the display name. -/
theorem update_func_name (f : FuncInfo) (t : SType) :
    (update_func f t).1.name = f.name := by
  rw [update_func_fst]; split <;> rfl

/-- `update_func` preserves the raw name. -/
theorem update_func_glib (f : FuncInfo) (t : SType) :
    (update_func f t).1.glib_name = f.glib_name := by
  rw [update_func_fst]; split <;> rfl

/-- `update_func` preserves the min version. -/
theorem update_func_version (f : FuncInfo) (t : SType) :
    (update_func f t).1.version = f.version := by
  rw [update_func_fst]; split <;> rfl

/-! ### One loop iteration: function component -/

/-- The function component of a loop iteration does not depend on the loop
state or position. -/
theorem extract_step_fst (pt : LibType) (obj : GObject) (pos : Nat)
    (f : FuncInfo) (st : ExtractState) :
    (extract_step pt obj pos f st).1 = extract_fn pt obj f := by
  unfold extract_fn
  simp only [extract_step]
  split
  · rfl
  · split
    · split <;> rfl
    · rfl

/-- A stringify-accepted function maps to the detector-mutated function. -/
theorem extract_fn_of_stringify (pt : LibType) (obj : GObject) (f : FuncInfo)
    (h : (is_stringify f pt obj).1 = true) :
    extract_fn pt obj f = (is_stringify f pt obj).2 := by
  unfold extract_fn
  simp only [extract_step, h]
  simp

/-- A vocabulary-classified function maps through `update_func`. -/
theorem extract_fn_of_classify (pt : LibType) (obj : GObject) (f : FuncInfo)
    (t : SType) (h : classifiesTo pt obj f t = true) :
    extract_fn pt obj f = (update_func (is_stringify f pt obj).2 t).1 := by
  simp only [classifiesTo, Bool.and_eq_true, Bool.not_eq_true', decide_eq_true_eq,
    Bool.not_eq_true, decide_eq_false_iff_not] at h
  obtain ⟨⟨hrej, hparse⟩, hnd⟩ := h
  unfold extract_fn
  simp only [extract_step, hrej, hparse, Bool.false_eq_true, if_false, if_neg hnd,
    update_func_snd]
  simp [update_func_snd]

/-- A deferred `destroy` function maps to the detector-mutated function. -/
theorem extract_fn_of_defer (pt : LibType) (obj : GObject) (f : FuncInfo)
    (h : defersDestroy pt obj f = true) :
    extract_fn pt obj f = (is_stringify f pt obj).2 := by
  simp only [defersDestroy, Bool.and_eq_true, Bool.not_eq_true', decide_eq_true_eq] at h
  obtain ⟨hrej, hnd⟩ := h
  unfold extract_fn
  simp only [extract_step, hrej, Bool.false_eq_true, if_false, hnd]
  simp [SType.from_str]

/-- A function whose name does not parse maps to the detector-mutated
function. -/
theorem extract_fn_of_unparsed (pt : LibType) (obj : GObject) (f : FuncInfo)
    (hrej : (is_stringify f pt obj).1 = false)
    (h : SType.from_str (is_stringify f pt obj).2.name = none) :
    extract_fn pt obj f = (is_stringify f pt obj).2 := by
  unfold extract_fn
  simp only [extract_step, hrej, Bool.false_eq_true, if_false, h]

/-- One loop iteration respects the frame relation. -/
theorem extract_fn_frame (pt : LibType) (obj : GObject) (f : FuncInfo) :
    SameFrame f (extract_fn pt obj f) := by
  unfold extract_fn
  simp only [extract_step]
  split
  · exact is_stringify_frame f pt obj
  · split
    · split
      · exact is_stringify_frame f pt obj
      · obtain ⟨h1, h2, h3, h4, h5, h6⟩ := is_stringify_frame f pt obj
        obtain ⟨g1, g2, g3, g4, g5, g6⟩ := update_func_frame (is_stringify f pt obj).2 _
        exact ⟨g1.trans h1, g2.trans h2, g3.trans h3, g4.trans h4,
          g5.trans h5, g6.trans h6⟩
    · exact is_stringify_frame f pt obj

/-! ### Vocabulary parser inversions -/

/-- Parsing to `Free` characterizes the two destroy-convention names. -/
theorem from_str_eq_free (n : String) :
    SType.from_str n = some SType.Free ↔ (n = "free" ∨ n = "destroy") := by
  unfold SType.from_str
  split <;> simp_all

/-- The vocabulary never parses to `Display`. -/
theorem from_str_ne_display (n : String) (t : SType)
    (h : SType.from_str n = some t) : t ≠ SType.Display := by
  unfold SType.from_str at h
  split at h <;>
    first
      | (injection h with h; subst h; decide)
      | exact absurd h (by simp)

/-- `copy` is the only name parsing to `Copy`. -/
theorem from_str_eq_copy (n : String) :
    SType.from_str n = some SType.Copy ↔ n = "copy" := by
  unfold SType.from_str
  split <;> simp_all

/-! ### One loop iteration: state component -/

/-- `has_copy` after an iteration. -/
theorem extract_step_has_copy (pt : LibType) (obj : GObject) (pos : Nat)
    (f : FuncInfo) (st : ExtractState) :
    ((extract_step pt obj pos f st).2).has_copy
      = (st.has_copy || foundCopy pt obj f) := by
  simp only [extract_step, foundCopy]
  split
  case isTrue hr => simp [hr]
  case isFalse hr =>
    rw [Bool.not_eq_true] at hr
    split
    case h_1 t hparse =>
      split
      case isTrue hname => simp [hr, hname]
      case isFalse hname =>
        rw [if_neg (by simp [update_func_snd])]
        show (ite _ _ _ : ExtractState).has_copy = _
        simp only [update_func_name]
        split
        case isTrue hcopy => simp [hr, hcopy]
        case isFalse hcopy =>
          split
          case isTrue hfree => simp [hr, hcopy]
          case isFalse hfree => simp [hr, hcopy]
    case h_2 hparse =>
      have hne : (is_stringify f pt obj).2.name ≠ "copy" := by
        intro he; rw [he] at hparse; simp [SType.from_str] at hparse
      simp [hr, hne]

/-- `has_free` after an iteration. -/
theorem extract_step_has_free (pt : LibType) (obj : GObject) (pos : Nat)
    (f : FuncInfo) (st : ExtractState) :
    ((extract_step pt obj pos f st).2).has_free
      = (st.has_free || foundFree pt obj f) := by
  simp only [extract_step, foundFree]
  split
  case isTrue hr => simp [hr]
  case isFalse hr =>
    rw [Bool.not_eq_true] at hr
    split
    case h_1 t hparse =>
      split
      case isTrue hname => simp [hr, hname]
      case isFalse hname =>
        rw [if_neg (by simp [update_func_snd])]
        show (ite _ _ _ : ExtractState).has_free = _
        simp only [update_func_name]
        split
        case isTrue hcopy =>
          have : (is_stringify f pt obj).2.name ≠ "free" := by simp [hcopy]
          simp [hr, hcopy, this]
        case isFalse hcopy =>
          split
          case isTrue hfree => simp [hr, hfree]
          case isFalse hfree => simp [hr, hfree]
    case h_2 hparse =>
      have hne : (is_stringify f pt obj).2.name ≠ "free" := by
        intro he; rw [he] at hparse; simp [SType.from_str] at hparse
      simp [hr, hne]

/-- The deferred destroy candidate after an iteration. -/
theorem extract_step_destroy (pt : LibType) (obj : GObject) (pos : Nat)
    (f : FuncInfo) (st : ExtractState) :
    ((extract_step pt obj pos f st).2).destroy
      = (if defersDestroy pt obj f then some (f.glib_name, pos) else st.destroy) := by
  simp only [extract_step, defersDestroy]
  split
  case isTrue hr => simp [hr]
  case isFalse hr =>
    rw [Bool.not_eq_true] at hr
    split
    case h_1 t hparse =>
      split
      case isTrue hname => simp [hr, hname, is_stringify_glib]
      case isFalse hname =>
        rw [if_neg (by simp [update_func_snd])]
        show (ExtractState.destroy _) = _
        simp only [update_func_name]
        split
        case isTrue hcopy => simp [hr, hname]
        case isFalse hcopy =>
          split
          case isTrue hfree => simp [hr, hname]
          case isFalse hfree => simp [hr, hname]
    case h_2 hparse =>
      have hne : (is_stringify f pt obj).2.name ≠ "destroy" := by
        intro he; rw [he] at hparse; simp [SType.from_str] at hparse
      simp [hr, hne]

/-- The traits map after an iteration, at any kind other than `Display`. -/
theorem extract_step_traits (pt : LibType) (obj : GObject) (pos : Nat)
    (f : FuncInfo) (st : ExtractState) (t : SType) (ht : t ≠ SType.Display) :
    ((extract_step pt obj pos f st).2).specials.traits t
      = (if classifiesTo pt obj f t then some ⟨f.glib_name, f.version⟩
         else st.specials.traits t) := by
  simp only [extract_step, classifiesTo]
  split
  case isTrue hr =>
    simp only [hr, Bool.not_true, Bool.false_and, Bool.false_eq_true, if_false]
    show (Infos.traits _) _ = _
    split
    · simp only [mapInsert]
      rw [if_neg ht]
      split <;> rfl
    · split <;> rfl
  case isFalse hr =>
    rw [Bool.not_eq_true] at hr
    split
    case h_1 t2 hparse =>
      split
      case isTrue hname => simp [hr, hname]
      case isFalse hname =>
        rw [if_neg (by simp [update_func_snd])]
        show mapInsert _ _ _ _ = _
        by_cases het : t = t2
        · subst het
          have hcond : (!(is_stringify f pt obj).1
              && decide (SType.from_str (is_stringify f pt obj).2.name = some t)
              && !decide ((is_stringify f pt obj).2.name = "destroy")) = true := by
            simp [hr, hparse, hname]
          rw [if_pos hcond]
          simp [mapInsert, update_func_glib, update_func_version,
            is_stringify_glib, is_stringify_version]
        · have h1 : decide (SType.from_str (is_stringify f pt obj).2.name = some t)
              = false := by
            rw [hparse]
            exact decide_eq_false (fun hh => het (Option.some.inj hh).symm)
          have hcond : ¬ ((!(is_stringify f pt obj).1
              && decide (SType.from_str (is_stringify f pt obj).2.name = some t)
              && !decide ((is_stringify f pt obj).2.name = "destroy")) = true) := by
            simp [h1]
          rw [if_neg hcond]
          simp only [mapInsert]
          rw [if_neg het]
          show (ExtractState.specials _).traits _ = _
          split
          · rfl
          · split <;> rfl
    case h_2 hparse =>
      simp [hr, hparse]

/-- The stringify-functions map after an iteration, at any raw name. -/
theorem extract_step_functions (pt : LibType) (obj : GObject) (pos : Nat)
    (f : FuncInfo) (st : ExtractState) (g : String) :
    ((extract_step pt obj pos f st).2).specials.functions g
      = (if staticStringifyAt pt obj f ∧ f.glib_name = g
         then some ⟨FunctionType.StaticStringify, f.version⟩
         else st.specials.functions g) := by
  simp only [extract_step, staticStringifyAt, return_transfer_none]
  split
  case isTrue hr =>
    simp only [hr, Bool.true_and]
    show (Infos.functions _) _ = _
    have hfns : ∀ sp2 : Infos,
        sp2.functions
          = (if ((match (is_stringify f pt obj).2.ret.parameter with
                  | some ret => decide (ret.transfer = Transfer.none)
                  | none => false)
                && (decide (pt = LibType.enumeration)
                    || decide (pt = LibType.bitfield))
                && (is_stringify f pt obj).2.status.need_generate) = true then
              { st.specials with
                functions := mapInsert st.specials.functions
                  (is_stringify f pt obj).2.glib_name
                  ⟨FunctionType.StaticStringify, (is_stringify f pt obj).2.version⟩ }
             else st.specials).functions
        → sp2.functions g
          = (if (((match (is_stringify f pt obj).2.ret.parameter with
                    | some ret => decide (ret.transfer = Transfer.none)
                    | none => false)
                  && (decide (pt = LibType.enumeration)
                      || decide (pt = LibType.bitfield))
                  && (is_stringify f pt obj).2.status.need_generate) = true)
                ∧ f.glib_name = g
             then some ⟨FunctionType.StaticStringify, f.version⟩
             else st.specials.functions g) := by
      intro sp2 hsp
      rw [hsp]
      split
      case isTrue hcond =>
        show mapInsert _ _ _ _ = _
        simp only [mapInsert, is_stringify_glib, is_stringify_version]
        by_cases hg : f.glib_name = g
        · rw [if_pos hg.symm, if_pos ⟨hcond, hg⟩]
        · rw [if_neg (fun he => hg he.symm), if_neg (fun hc => hg hc.2)]
      case isFalse hcond =>
        rw [if_neg (fun hc => hcond hc.1)]
    split
    · exact hfns _ rfl
    · exact hfns _ rfl
  case isFalse hr =>
    rw [Bool.not_eq_true] at hr
    split
    case h_1 t2 hparse =>
      split
      case isTrue hname => simp [hr]
      case isFalse hname =>
        rw [if_neg (by simp [update_func_snd])]
        simp only [hr, Bool.false_and, Bool.false_eq_true, false_and, if_false]
        show (ExtractState.specials _).functions _ = _
        split
        · rfl
        · split <;> rfl
    case h_2 hparse => simp [hr]

/-! ### Generic last-write-wins fold helpers -/

/-- A fold that overrides its accumulator on `p` leaves it unchanged when no
element satisfies `p`. -/
theorem foldl_override_eq {α β : Type} (fs : List α) (p : α → Prop)
    [DecidablePred p] (v : α → β) (init : β) (h : ∀ f ∈ fs, ¬ p f) :
    fs.foldl (fun acc f => if p f then v f else acc) init = init := by
  induction fs generalizing init with
  | nil => rfl
  | cons f fs ih =>
    rw [List.foldl_cons, if_neg (h f (by simp)), ih]
    exact fun g hg => h g (by simp [hg])

/-- A fold that overrides its accumulator on `p` returns the value of the
last element satisfying `p`. -/
theorem foldl_override_last {α β : Type} (fs : List α) (p : α → Prop)
    [DecidablePred p] (v : α → β) (init : β) (j : Nat) (x : α)
    (hj : fs.get? j = some x) (hp : p x)
    (hlast : ∀ k y, fs.get? k = some y → j < k → ¬ p y) :
    fs.foldl (fun acc f => if p f then v f else acc) init = v x := by
  induction fs generalizing j init with
  | nil => simp at hj
  | cons f fs ih =>
    rw [List.foldl_cons]
    cases j with
    | zero =>
      have hx : f = x := by simpa using hj
      subst hx
      rw [if_pos hp]
      apply foldl_override_eq
      intro g hg
      obtain ⟨n, hn⟩ := List.get?_of_mem hg
      exact hlast (n + 1) g (by simpa using hn) (Nat.succ_pos n)
    | succ n =>
      exact ih _ n (by simpa using hj)
        (fun k y hk hnk => hlast (k + 1) y (by simpa using hk) (by omega))

/-- A fold that overrides its accumulator on `p` produces the initial value
or a value of some element satisfying `p`. -/
theorem foldl_override_inv {α β : Type} (fs : List α) (p : α → Prop)
    [DecidablePred p] (v : α → β) (init : β) (b : β)
    (h : fs.foldl (fun acc f => if p f then v f else acc) init = b) :
    b = init ∨ ∃ x ∈ fs, p x ∧ b = v x := by
  induction fs generalizing init with
  | nil => exact Or.inl h.symm
  | cons f fs ih =>
    rw [List.foldl_cons] at h
    rcases ih _ h with hb | ⟨x, hx, hpx, hbx⟩
    · by_cases hpf : p f
      · rw [if_pos hpf] at hb
        exact Or.inr ⟨f, by simp, hpf, hb⟩
      · rw [if_neg hpf] at hb
        exact Or.inl hb
    · exact Or.inr ⟨x, by simp [hx], hpx, hbx⟩

/-! ### The classification loop -/

/-- The function-list component of the loop is a position-independent map. -/
theorem extract_go_fst (pt : LibType) (obj : GObject) (fs : List FuncInfo)
    (pos : Nat) (st : ExtractState) :
    (extract_go pt obj fs pos st).1 = fs.map (extract_fn pt obj) := by
  induction fs generalizing pos st with
  | nil => rfl
  | cons f fs ih =>
    simp only [extract_go, List.map_cons]
    rw [extract_step_fst, ih]

/-- The loop preserves the length of the function list. -/
theorem extract_go_length (pt : LibType) (obj : GObject) (fs : List FuncInfo)
    (pos : Nat) (st : ExtractState) :
    (extract_go pt obj fs pos st).1.length = fs.length := by
  rw [extract_go_fst, List.length_map]

/-- `has_copy` after the loop. -/
theorem extract_go_has_copy (pt : LibType) (obj : GObject) (fs : List FuncInfo)
    (pos : Nat) (st : ExtractState) :
    ((extract_go pt obj fs pos st).2).has_copy
      = (st.has_copy || fs.any (foundCopy pt obj)) := by
  induction fs generalizing pos st with
  | nil => simp [extract_go]
  | cons f fs ih =>
    simp only [extract_go]
    rw [ih, extract_step_has_copy]
    simp [Bool.or_assoc]

/-- `has_free` after the loop. -/
theorem extract_go_has_free (pt : LibType) (obj : GObject) (fs : List FuncInfo)
    (pos : Nat) (st : ExtractState) :
    ((extract_go pt obj fs pos st).2).has_free
      = (st.has_free || fs.any (foundFree pt obj)) := by
  induction fs generalizing pos st with
  | nil => simp [extract_go]
  | cons f fs ih =>
    simp only [extract_go]
    rw [ih, extract_step_has_free]
    simp [Bool.or_assoc]

/-- The deferred destroy candidate is unchanged when no element defers. -/
theorem extract_go_destroy_eq (pt : LibType) (obj : GObject)
    (fs : List FuncInfo) (pos : Nat) (st : ExtractState)
    (h : ∀ f ∈ fs, defersDestroy pt obj f = false) :
    ((extract_go pt obj fs pos st).2).destroy = st.destroy := by
  induction fs generalizing pos st with
  | nil => rfl
  | cons f fs ih =>
    simp only [extract_go]
    rw [ih _ _ (fun g hg => h g (by simp [hg])), extract_step_destroy,
      if_neg (by simp [h f (by simp)])]

/-- The deferred destroy candidate when exactly one element defers. -/
theorem extract_go_destroy_unique (pt : LibType) (obj : GObject)
    (fs : List FuncInfo) (pos : Nat) (st : ExtractState) (d : Nat) (x : FuncInfo)
    (hd : fs.get? d = some x) (hx : defersDestroy pt obj x = true)
    (huniq : ∀ k y, fs.get? k = some y → k ≠ d → defersDestroy pt obj y = false) :
    ((extract_go pt obj fs pos st).2).destroy = some (x.glib_name, pos + d) := by
  induction fs generalizing pos st d with
  | nil => simp at hd
  | cons f fs ih =>
    simp only [extract_go]
    cases d with
    | zero =>
      have hx0 : f = x := by simpa using hd
      subst hx0
      rw [extract_go_destroy_eq]
      · rw [extract_step_destroy, if_pos hx]
        norm_num
      · intro g hg
        obtain ⟨n, hn⟩ := List.get?_of_mem hg
        exact huniq (n + 1) g (by simpa using hn) (Nat.succ_ne_zero n)
    | succ n =>
      rw [ih _ _ n (by simpa using hd)
        (fun k y hk hkd => huniq (k + 1) y (by simpa using hk) (by omega))]
      have : pos + 1 + n = pos + (n + 1) := by omega
      rw [this]

/-- Inversion of the deferred destroy candidate after the loop. -/
theorem extract_go_destroy_inv (pt : LibType) (obj : GObject)
    (fs : List FuncInfo) (pos : Nat) (st : ExtractState) (g : String) (p : Nat)
    (h : ((extract_go pt obj fs pos st).2).destroy = some (g, p)) :
    st.destroy = some (g, p)
    ∨ ∃ x : FuncInfo, fs.get? (p - pos) = some x ∧ pos ≤ p
        ∧ defersDestroy pt obj x = true ∧ g = x.glib_name := by
  induction fs generalizing pos st with
  | nil => exact Or.inl h
  | cons f fs ih =>
    simp only [extract_go] at h
    rcases ih _ _ h with hst | ⟨x, hx, hpx, hdx, hgx⟩
    · rw [extract_step_destroy] at hst
      by_cases hdf : defersDestroy pt obj f = true
      · rw [if_pos hdf] at hst
        obtain ⟨hg, hp⟩ : f.glib_name = g ∧ pos = p := by
          constructor <;> [exact congrArg Prod.fst (Option.some.inj hst);
            exact congrArg Prod.snd (Option.some.inj hst)]
        refine Or.inr ⟨f, ?_, by omega, hdf, hg.symm⟩
        have : p - pos = 0 := by omega
        rw [this]
        rfl
      · rw [if_neg hdf] at hst
        exact Or.inl hst
    · refine Or.inr ⟨x, ?_, by omega, hdx, hgx⟩
      have : p - pos = (p - (pos + 1)) + 1 := by omega
      rw [this]
      simpa using hx

/-- The traits map after the loop, at any kind other than `Display`, is a
last-write-wins fold over the classified functions. -/
theorem extract_go_traits (pt : LibType) (obj : GObject) (t : SType)
    (ht : t ≠ SType.Display) (fs : List FuncInfo) (pos : Nat) (st : ExtractState) :
    ((extract_go pt obj fs pos st).2).specials.traits t
      = fs.foldl
          (fun acc f => if classifiesTo pt obj f t then some ⟨f.glib_name, f.version⟩
            else acc)
          (st.specials.traits t) := by
  induction fs generalizing pos st with
  | nil => rfl
  | cons f fs ih =>
    simp only [extract_go, List.foldl_cons]
    rw [ih, extract_step_traits _ _ _ _ _ t ht]

/-- The stringify-functions map after the loop, at any raw name, is a
last-write-wins fold over the statically-stringified functions. -/
theorem extract_go_functions (pt : LibType) (obj : GObject) (g : String)
    (fs : List FuncInfo) (pos : Nat) (st : ExtractState) :
    ((extract_go pt obj fs pos st).2).specials.functions g
      = fs.foldl
          (fun acc f => if staticStringifyAt pt obj f ∧ f.glib_name = g
            then some ⟨FunctionType.StaticStringify, f.version⟩
            else acc)
          (st.specials.functions g) := by
  induction fs generalizing pos st with
  | nil => rfl
  | cons f fs ih =>
    simp only [extract_go, List.foldl_cons]
    rw [ih, extract_step_functions]

/-! ### Index access helpers -/

/-- In-range index access as an optional lookup. -/
theorem get?_fnAt (fs : List FuncInfo) (i : Nat) (h : i < fs.length) :
    fs.get? i = some (fnAt fs i) := by
  simp [fnAt, List.get?_eq_getElem?, List.getElem?_eq_getElem h]

/-- `fnAt` through `map`. -/
theorem fnAt_map (fs : List FuncInfo) (i : Nat) (h : i < fs.length)
    (g : FuncInfo → FuncInfo) : fnAt (fs.map g) i = g (fnAt fs i) := by
  simp [fnAt, List.get?_eq_getElem?, List.getElem?_map, List.getElem?_eq_getElem h]

/-- `fnAt` after `set` at a different index. -/
theorem fnAt_set_ne (fs : List FuncInfo) (i j : Nat) (v : FuncInfo) (h : j ≠ i) :
    fnAt (fs.set j v) i = fnAt fs i := by
  simp [fnAt, List.get?_eq_getElem?, List.getElem?_set_ne h]

/-- `fnAt` after `set` at the same index. -/
theorem fnAt_set_self (fs : List FuncInfo) (j : Nat) (v : FuncInfo)
    (h : j < fs.length) : fnAt (fs.set j v) j = v := by
  simp [fnAt, List.get?_eq_getElem?, List.getElem?_set_eq_of_lt _ h]

/-! ### The two phases of `extract` -/

/-- The loop result feeding both phases of `extract`. -/
def extract_loop_res (fs : List FuncInfo) (pt : LibType) (obj : GObject) :
    List FuncInfo × ExtractState :=
  extract_go pt obj fs 0 ⟨Infos.default, false, false, Option.none⟩

/-- When the copy-without-free condition fails, `extract` returns the loop
result unchanged. -/
theorem extract_eq_of_not_cond (fs : List FuncInfo) (pt : LibType) (obj : GObject)
    (h : ¬ ((extract_loop_res fs pt obj).2.has_copy = true
        ∧ ¬ (extract_loop_res fs pt obj).2.has_free = true)) :
    extract fs pt obj
      = ((extract_loop_res fs pt obj).1, (extract_loop_res fs pt obj).2.specials) := by
  simp only [extract_loop_res] at h ⊢
  simp only [extract]
  rw [if_neg h]

/-- When no destroy candidate was deferred, `extract` returns the loop result
unchanged. -/
theorem extract_eq_of_no_defer (fs : List FuncInfo) (pt : LibType) (obj : GObject)
    (h : (extract_loop_res fs pt obj).2.destroy = Option.none) :
    extract fs pt obj
      = ((extract_loop_res fs pt obj).1, (extract_loop_res fs pt obj).2.specials) := by
  simp only [extract_loop_res] at h ⊢
  simp only [extract]
  split
  · rw [h]
  · rfl

/-- When the copy-without-free condition holds and a destroy candidate was
deferred at an in-range position, `extract` rewrites that position and the
`Free` trait entry. -/
theorem extract_eq_of_fire (fs : List FuncInfo) (pt : LibType) (obj : GObject)
    (g : String) (p : Nat) (fp : FuncInfo)
    (hc : (extract_loop_res fs pt obj).2.has_copy = true
        ∧ ¬ (extract_loop_res fs pt obj).2.has_free = true)
    (hdes : (extract_loop_res fs pt obj).2.destroy = some (g, p))
    (hget : (extract_loop_res fs pt obj).1.get? p = some fp) :
    extract fs pt obj
      = ((extract_loop_res fs pt obj).1.set p (update_func fp SType.Free).1,
         { (extract_loop_res fs pt obj).2.specials with
            traits := mapInsert (extract_loop_res fs pt obj).2.specials.traits
              SType.Free ⟨g, (update_func fp SType.Free).1.version⟩ }) := by
  simp only [extract_loop_res] at hc hdes hget ⊢
  simp only [extract]
  rw [if_pos hc]
  split
  case h_2 heq =>
    rw [heq] at hdes
    exact Option.noConfusion hdes
  case h_1 gp heq =>
    injection heq.symm.trans hdes with h2
    subst h2
    split
    case h_2 heq2 =>
      rw [heq2] at hget
      exact Option.noConfusion hget
    case h_1 func heq2 =>
      injection heq2.symm.trans hget with h3
      subst h3
      rfl

/-! ### Classification predicate facts -/

/-- A deferring function is literally named `destroy`, is untouched by the
stringify detector, and was rejected by it. -/
theorem defersDestroy_char (pt : LibType) (obj : GObject) (f : FuncInfo)
    (h : defersDestroy pt obj f = true) :
    f.name = "destroy" ∧ (is_stringify f pt obj).2 = f
      ∧ (is_stringify f pt obj).1 = false := by
  simp only [defersDestroy, Bool.and_eq_true, Bool.not_eq_true', decide_eq_true_eq] at h
  obtain ⟨hrej, hnd⟩ := h
  have hname : f.name = "destroy" := by
    rcases is_stringify_snd_name f pt obj with hn | ⟨h1, h2⟩
    · rw [hn] at hnd; exact hnd
    · rw [h2] at hnd; exact absurd hnd (by decide)
  exact ⟨hname, is_stringify_snd_of_ne f pt obj (by rw [hname]; decide), hrej⟩

/-- A classified function never defers. -/
theorem classifiesTo_not_defers (pt : LibType) (obj : GObject) (f : FuncInfo)
    (t : SType) (h : classifiesTo pt obj f t = true) :
    defersDestroy pt obj f = false := by
  simp only [classifiesTo, Bool.and_eq_true, Bool.not_eq_true', decide_eq_true_eq,
    decide_eq_false_iff_not] at h
  simp [defersDestroy, h.1.1, h.2]

/-- A function classified under `Free` is named `free` after the detector. -/
theorem classifiesTo_free_name (pt : LibType) (obj : GObject) (f : FuncInfo)
    (h : classifiesTo pt obj f SType.Free = true) :
    (is_stringify f pt obj).2.name = "free" := by
  simp only [classifiesTo, Bool.and_eq_true, Bool.not_eq_true', decide_eq_true_eq,
    decide_eq_false_iff_not] at h
  obtain ⟨⟨hrej, hparse⟩, hnd⟩ := h
  rcases (from_str_eq_free _).mp hparse with hf | hd
  · exact hf
  · exact absurd hd (by simpa using hnd)

/-- A function classified under `Free` sets the `has_free` flag. -/
theorem classifiesTo_free_foundFree (pt : LibType) (obj : GObject) (f : FuncInfo)
    (h : classifiesTo pt obj f SType.Free = true) :
    foundFree pt obj f = true := by
  have hn := classifiesTo_free_name pt obj f h
  simp only [classifiesTo, Bool.and_eq_true, Bool.not_eq_true', decide_eq_true_eq,
    decide_eq_false_iff_not] at h
  simp [foundFree, h.1.1, hn]

/-- A function setting the `has_free` flag classifies under `Free`. -/
theorem foundFree_classifies (pt : LibType) (obj : GObject) (f : FuncInfo)
    (h : foundFree pt obj f = true) :
    classifiesTo pt obj f SType.Free = true := by
  simp only [foundFree, Bool.and_eq_true, Bool.not_eq_true', decide_eq_true_eq] at h
  simp [classifiesTo, h.1, h.2, SType.from_str]

/-- A function setting the `has_copy` flag classifies under `Copy`. -/
theorem foundCopy_classifies (pt : LibType) (obj : GObject) (f : FuncInfo)
    (h : foundCopy pt obj f = true) :
    classifiesTo pt obj f SType.Copy = true := by
  simp only [foundCopy, Bool.and_eq_true, Bool.not_eq_true', decide_eq_true_eq] at h
  simp [classifiesTo, h.1, h.2, SType.from_str]

/-- The frame relation is transitive. -/
theorem SameFrame.trans {f g h : FuncInfo} (hfg : SameFrame f g)
    (hgh : SameFrame g h) : SameFrame f h :=
  ⟨hgh.1.trans hfg.1, hgh.2.1.trans hfg.2.1, hgh.2.2.1.trans hfg.2.2.1,
   hgh.2.2.2.1.trans hfg.2.2.2.1, hgh.2.2.2.2.1.trans hfg.2.2.2.2.1,
   hgh.2.2.2.2.2.trans hfg.2.2.2.2.2⟩

/-! ### Consequences for `extract` -/

/-- `extract` preserves the length of the function list. -/
theorem extract_length (fs : List FuncInfo) (pt : LibType) (obj : GObject) :
    (extract fs pt obj).1.length = fs.length := by
  simp only [extract]
  split
  · split
    · split
      · simp [List.length_set, extract_go_length]
      · simp [extract_go_length]
    · simp [extract_go_length]
  · simp [extract_go_length]

/-- A recorded destroy candidate points to an in-range deferring function. -/
theorem extract_destroy_char (fs : List FuncInfo) (pt : LibType) (obj : GObject)
    (g : String) (p : Nat)
    (h : (extract_loop_res fs pt obj).2.destroy = some (g, p)) :
    ∃ x, fs.get? p = some x ∧ defersDestroy pt obj x = true ∧ g = x.glib_name := by
  rcases extract_go_destroy_inv pt obj fs 0
      ⟨Infos.default, false, false, Option.none⟩ g p h with hl | ⟨x, hx, _, hdx, hgx⟩
  · exact absurd hl (by simp)
  · exact ⟨x, by simpa using hx, hdx, hgx⟩

/-- The mutated list produced by `extract`: either the loop result, or the
loop result with the fired destroy position rewritten. -/
theorem extract_fst_char (fs : List FuncInfo) (pt : LibType) (obj : GObject) :
    (extract fs pt obj).1 = (extract_loop_res fs pt obj).1
    ∨ ∃ g p fp, (extract_loop_res fs pt obj).2.destroy = some (g, p)
        ∧ (extract_loop_res fs pt obj).1.get? p = some fp
        ∧ (extract fs pt obj).1
            = (extract_loop_res fs pt obj).1.set p (update_func fp SType.Free).1 := by
  simp only [extract, extract_loop_res]
  split
  · split
    case h_1 gp heq =>
      split
      case h_1 func heq2 =>
        exact Or.inr ⟨gp.1, gp.2, func, heq, heq2, rfl⟩
      case h_2 => exact Or.inl rfl
    case h_2 => exact Or.inl rfl
  · exact Or.inl rfl

/-- Position-wise view of the list produced by `extract`: every function is
its own loop image, except that the fired deferring function additionally
passes through `update_func` under `Free`. -/
theorem extract_fnAt_cases (fs : List FuncInfo) (pt : LibType) (obj : GObject)
    (i : Nat) (hi : i < fs.length) :
    fnAt (extract fs pt obj).1 i = extract_fn pt obj (fnAt fs i)
    ∨ (defersDestroy pt obj (fnAt fs i) = true
        ∧ fnAt (extract fs pt obj).1 i
            = (update_func (extract_fn pt obj (fnAt fs i)) SType.Free).1) := by
  have hmap : (extract_loop_res fs pt obj).1 = fs.map (extract_fn pt obj) :=
    extract_go_fst pt obj fs 0 _
  rcases extract_fst_char fs pt obj with heq | ⟨g, p, fp, hdes, hget, heq⟩
  · rw [heq, hmap, fnAt_map fs i hi]
    exact Or.inl rfl
  · obtain ⟨x, hx, hdx, hgx⟩ := extract_destroy_char fs pt obj g p hdes
    have hp : p < fs.length := by
      have := List.get?_eq_some.mp hx
      exact this.1
    have hfp : fp = extract_fn pt obj (fnAt fs p) := by
      rw [hmap] at hget
      have h1 : fs.get? p = some (fnAt fs p) := get?_fnAt fs p hp
      have h2 : (fs.map (extract_fn pt obj)).get? p
          = some (extract_fn pt obj (fnAt fs p)) := by
        rw [List.get?_map, h1]
        rfl
      exact (Option.some.inj (h2.symm.trans hget)).symm
    by_cases hip : i = p
    · subst hip
      rw [heq, hmap, fnAt_set_self _ _ _ (by rw [List.length_map]; exact hi)]
      have hxat : fnAt fs i = x := by
        have := get?_fnAt fs i hi
        exact Option.some.inj (this.symm.trans hx)
      refine Or.inr ⟨by rw [hxat]; exact hdx, ?_⟩
      rw [hfp]
    · rw [heq, fnAt_set_ne _ _ _ _ (fun hh => hip hh.symm), hmap, fnAt_map fs i hi]
      exact Or.inl rfl

/-- The traits entry of any kind other than `Free` (and `Display`) is decided
by the loop alone. -/
theorem extract_traits_of_ne_free (fs : List FuncInfo) (pt : LibType)
    (obj : GObject) (t : SType) (ht : t ≠ SType.Free) :
    (extract fs pt obj).2.traits t
      = (extract_loop_res fs pt obj).2.specials.traits t := by
  simp only [extract, extract_loop_res]
  split
  · split
    · split
      · show mapInsert _ _ _ _ = _
        simp only [mapInsert]
        rw [if_neg ht]
      · rfl
    · rfl
  · rfl

/-- One loop iteration preserves a suppressed visibility. -/
theorem extract_fn_comment (pt : LibType) (obj : GObject) (f : FuncInfo)
    (h : f.visibility = Visibility.Comment) :
    (extract_fn pt obj f).visibility = Visibility.Comment := by
  unfold extract_fn
  simp only [extract_step]
  split
  · rw [is_stringify_visibility]; exact h
  · split
    · split
      · rw [is_stringify_visibility]; exact h
      · rw [if_neg (by simp [update_func_snd])]
        show (update_func (is_stringify f pt obj).2 _).1.visibility = _
        rw [update_func_comment _ _ (by rw [is_stringify_visibility]; exact h)]
        rw [is_stringify_visibility]; exact h
    · rw [is_stringify_visibility]; exact h

end SpecialFunctions

namespace SpecialFunctions

/-! ### Claim C4: the stringify detector contract -/

/-- The Stringify Detector contract as the specification states it (§4.1),
transcribed rule by rule, to be compared with `is_stringify`. -/
def is_stringify_spec (func : FuncInfo) (type_context : LibType)
    (policy : GObject) : Bool × FuncInfo :=
  -- Rule 1: reject unless there is exactly one parameter and it is the
  -- instance parameter.
  if func.parameters.c_parameters.length = 1
      ∧ (func.parameters.c_parameters.getD 0 default).instance_parameter = true then
    -- Rule 2: reject unless the function has a return value of the
    -- recognized string type.
    match func.ret.parameter with
    | some ret =>
      if ret.typ = TypeId.tid_utf8 then
        -- Rule 3: rename the reserved name to the alternate identifier, and
        -- force the return non-nullable exactly when the policy does not
        -- trust upstream nullability and the context is neither an
        -- enumeration nor a bitfield.
        let renamed : Bool := decide (func.name = "to_string")
        let forced : Bool := renamed
          && !policy.trust_return_value_nullability
          && !(decide (type_context = LibType.enumeration)
              || decide (type_context = LibType.bitfield))
        let ret2 : RetParameter :=
          if forced then { ret with nullable := false } else ret
        let func2 : FuncInfo :=
          if renamed then { func with name := "to_str", ret := ⟨some ret2⟩ }
          else func
        -- Rule 4: accept iff the return is non-nullable after rule 3.
        (!ret2.nullable, func2)
      else (false, func)
    | none => (false, func)
  else (false, func)

/-- C4: the stringify detector accepts a function exactly under the
specification's four rules — one instance parameter, a recognized string
return, and a return left non-nullable by the step-3 mutations, where
step 3 renames `to_string` to `to_str` and forces non-nullability exactly
when nullability is untrusted and the context is neither an enumeration
nor a bitfield. -/
theorem C4_stringify_detector_contract (func : FuncInfo) (pt : LibType)
    (obj : GObject) : is_stringify func pt obj = is_stringify_spec func pt obj := by
  cases hret : func.ret.parameter with
  | none =>
    simp only [is_stringify, is_stringify_spec, hret]
    split_ifs <;> rfl
  | some ret =>
    simp only [is_stringify, is_stringify_spec, hret]
    by_cases hlen : func.parameters.c_parameters.length = 1
    · have h0 : 0 < func.parameters.c_parameters.length := by omega
      by_cases hinst :
          (func.parameters.c_parameters.getD 0 default).instance_parameter = true
      · have hinst4 : func.parameters.c_parameters[0].instance_parameter = true := by
          rw [List.getD_eq_getElem?_getD, List.getElem?_eq_getElem h0] at hinst
          simpa using hinst
        by_cases htyp : ret.typ = TypeId.tid_utf8
        · have heta : (⟨some ret⟩ : ReturnValue) = func.ret := by rw [← hret]
          by_cases hname : func.name = "to_string"
          · simp only [hname]
            cases pt <;> cases htr : obj.trust_return_value_nullability <;>
              simp [hlen, hinst, hinst4, htyp, htr, heta]
          · simp [hlen, hinst, hinst4, htyp, hname]
        · simp [hlen, hinst, hinst4, htyp]
      · have hinst5 : func.parameters.c_parameters[0].instance_parameter = false := by
          rw [List.getD_eq_getElem?_getD, List.getElem?_eq_getElem h0] at hinst
          simpa using hinst
        simp [hlen, hinst, hinst5]
    · simp [hlen]

end SpecialFunctions

namespace SpecialFunctions

/-! ### Claim C6: the rename persists under rejection -/

/-- C6: any `to_string` function with a single instance parameter and a
string-typed return is renamed to `to_str`, and its return nullability is
overridden exactly by the policy rule, whether or not the detector ends up
accepting it. -/
theorem C6_rename_persists (f : FuncInfo) (pt : LibType) (obj : GObject)
    (p : CParameter) (r : RetParameter)
    (hname : f.name = "to_string")
    (hps : f.parameters.c_parameters = [p])
    (hip : p.instance_parameter = true)
    (hret : f.ret.parameter = some r)
    (htyp : r.typ = TypeId.tid_utf8) :
    (is_stringify f pt obj).2.name = "to_str"
    ∧ (is_stringify f pt obj).2.ret.parameter
        = some { r with nullable :=
            if ¬ obj.trust_return_value_nullability
                ∧ ¬ (pt = LibType.enumeration ∨ pt = LibType.bitfield)
            then false else r.nullable } := by
  obtain ⟨rt, rn, rtr⟩ := r
  dsimp only at htyp
  subst htyp
  simp only [is_stringify, hret, hps, hname]
  cases htr : obj.trust_return_value_nullability <;> cases pt <;>
    simp [hip, htr, hret]

/-- C6 witness: an enumeration-context `to_string` with a nullable string
return is renamed to `to_str`, keeps its trusted nullability, and is
rejected by the detector. -/
theorem C6_rename_persists_witness :
    (is_stringify
        ⟨"to_string", "gtk_foo_to_string", ⟨[⟨true⟩]⟩, ⟨some ⟨5, true, Transfer.none⟩⟩,
          Visibility.Public, some 4, GStatus.generate⟩
        LibType.enumeration ⟨false⟩).1 = false
    ∧ (is_stringify
        ⟨"to_string", "gtk_foo_to_string", ⟨[⟨true⟩]⟩, ⟨some ⟨5, true, Transfer.none⟩⟩,
          Visibility.Public, some 4, GStatus.generate⟩
        LibType.enumeration ⟨false⟩).2.name = "to_str"
    ∧ (is_stringify
        ⟨"to_string", "gtk_foo_to_string", ⟨[⟨true⟩]⟩, ⟨some ⟨5, true, Transfer.none⟩⟩,
          Visibility.Public, some 4, GStatus.generate⟩
        LibType.enumeration ⟨false⟩).2.ret.parameter
        = some ⟨5, true, Transfer.none⟩ := by
  refine ⟨by decide, ?_, ?_⟩
  · exact (C6_rename_persists
      ⟨"to_string", "gtk_foo_to_string", ⟨[⟨true⟩]⟩, ⟨some ⟨5, true, Transfer.none⟩⟩,
        Visibility.Public, some 4, GStatus.generate⟩
      LibType.enumeration ⟨false⟩ ⟨true⟩ ⟨5, true, Transfer.none⟩
      rfl rfl rfl rfl rfl).1
  · have h := (C6_rename_persists
      ⟨"to_string", "gtk_foo_to_string", ⟨[⟨true⟩]⟩, ⟨some ⟨5, true, Transfer.none⟩⟩,
        Visibility.Public, some 4, GStatus.generate⟩
      LibType.enumeration ⟨false⟩ ⟨true⟩ ⟨5, true, Transfer.none⟩
      rfl rfl rfl rfl rfl).2
    simpa using h

/-! ### Claim C9: totality on malformed descriptors -/

/-- C9: a function with no return descriptor is rejected by the stringify
detector and left unchanged by it, and `extract` still completes on any
list, preserving its length. -/
theorem C9_total_on_missing_return (fs : List FuncInfo) (pt : LibType)
    (obj : GObject) (f : FuncInfo) (h : f.ret.parameter = Option.none) :
    is_stringify f pt obj = (false, f)
    ∧ (extract fs pt obj).1.length = fs.length := by
  constructor
  · simp only [is_stringify, h]
    split_ifs <;> rfl
  · exact extract_length fs pt obj

/-- C9 witness: a return-bearing descriptor with no recorded return is
simply not eligible, and `extract` completes on the singleton list. -/
theorem C9_total_on_missing_return_witness :
    is_stringify
        ⟨"to_string", "gtk_foo_to_string", ⟨[⟨true⟩]⟩, ⟨Option.none⟩,
          Visibility.Public, Option.none, GStatus.generate⟩
        LibType.other ⟨false⟩
      = (false,
        ⟨"to_string", "gtk_foo_to_string", ⟨[⟨true⟩]⟩, ⟨Option.none⟩,
          Visibility.Public, Option.none, GStatus.generate⟩)
    ∧ (extract
        [⟨"to_string", "gtk_foo_to_string", ⟨[⟨true⟩]⟩, ⟨Option.none⟩,
          Visibility.Public, Option.none, GStatus.generate⟩]
        LibType.other ⟨false⟩).1.length = 1 :=
  C9_total_on_missing_return _ LibType.other ⟨false⟩ _ rfl

/-! ### Claim C7: the visibility policy table -/

/-- C7 counterexample: a non-suppressed `name` accessor is classified under
Format — it sources the Display trait entry — yet keeps its prior Hidden
visibility: the stringify path never calls `update_func`, so `extract`
never applies the table's Public row. -/
theorem C7_counterexample :
    (extract [⟨"name", "g_thing_name", ⟨[⟨true⟩]⟩,
        ⟨some ⟨5, false, Transfer.none⟩⟩, Visibility.Hidden, Option.none,
        GStatus.generate⟩] LibType.other ⟨false⟩).2.traits SType.Display
      = some ⟨"g_thing_name", Option.none⟩
    ∧ (fnAt [⟨"name", "g_thing_name", ⟨[⟨true⟩]⟩,
        ⟨some ⟨5, false, Transfer.none⟩⟩, Visibility.Hidden, Option.none,
        GStatus.generate⟩] 0).visibility ≠ Visibility.Comment
    ∧ (fnAt (extract [⟨"name", "g_thing_name", ⟨[⟨true⟩]⟩,
        ⟨some ⟨5, false, Transfer.none⟩⟩, Visibility.Hidden, Option.none,
        GStatus.generate⟩] LibType.other ⟨false⟩).1 0).visibility
        ≠ visibility SType.Display := by
  refine ⟨by decide, by decide, by decide⟩

/-- C7 (amended): the policy table assigns Hidden to Clone, Destroy,
RefIncrement and RefDecrement, Private to Hash, Compare and Equal, and
Public to Format; every non-suppressed function classified through the
operation vocabulary receives exactly the table visibility for its kind in
the list `extract` returns, while a function classified under Format
through the stringify path keeps its prior visibility untouched (`extract`
never applies the Public row). -/
theorem C7_visibility_policy_amended (fs : List FuncInfo) (pt : LibType)
    (obj : GObject) (i : Nat) (hi : i < fs.length) :
    (visibility SType.Copy = Visibility.Hidden
      ∧ visibility SType.Free = Visibility.Hidden
      ∧ visibility SType.Ref = Visibility.Hidden
      ∧ visibility SType.Unref = Visibility.Hidden
      ∧ visibility SType.Hash = Visibility.Private
      ∧ visibility SType.Compare = Visibility.Private
      ∧ visibility SType.Equal = Visibility.Private
      ∧ visibility SType.Display = Visibility.Public)
    ∧ (∀ t : SType, classifiesTo pt obj (fnAt fs i) t = true →
        (fnAt fs i).visibility ≠ Visibility.Comment →
        (fnAt (extract fs pt obj).1 i).visibility = visibility t)
    ∧ ((is_stringify (fnAt fs i) pt obj).1 = true →
        (fnAt (extract fs pt obj).1 i).visibility = (fnAt fs i).visibility) := by
  refine ⟨⟨rfl, rfl, rfl, rfl, rfl, rfl, rfl, rfl⟩, ?_, ?_⟩
  · intro t hcls hvis
    rcases extract_fnAt_cases fs pt obj i hi with hc | ⟨hd, _⟩
    · rw [hc, extract_fn_of_classify pt obj _ t hcls]
      rw [update_func_vis _ _ (by rw [is_stringify_visibility]; exact hvis)]
    · rw [classifiesTo_not_defers pt obj _ t hcls] at hd
      exact Bool.noConfusion hd
  · intro hacc
    rcases extract_fnAt_cases fs pt obj i hi with hc | ⟨hd, _⟩
    · rw [hc, extract_fn_of_stringify pt obj _ hacc, is_stringify_visibility]
    · exfalso
      simp only [defersDestroy, Bool.and_eq_true, Bool.not_eq_true'] at hd
      rw [hacc] at hd
      exact Bool.noConfusion hd.1

/-- C7 witness for the amended claim: a `copy` function comes out Hidden
through the vocabulary path, and a Format-classified `name` accessor keeps
its prior Hidden visibility. -/
theorem C7_visibility_policy_amended_witness :
    (fnAt (extract
        [⟨"copy", "g_boxed_copy", ⟨[]⟩, ⟨Option.none⟩, Visibility.Public,
          Option.none, GStatus.generate⟩]
        LibType.other ⟨false⟩).1 0).visibility = visibility SType.Copy
    ∧ (fnAt (extract [⟨"name", "g_thing_name", ⟨[⟨true⟩]⟩,
        ⟨some ⟨5, false, Transfer.none⟩⟩, Visibility.Hidden, Option.none,
        GStatus.generate⟩] LibType.other ⟨false⟩).1 0).visibility
      = (fnAt [⟨"name", "g_thing_name", ⟨[⟨true⟩]⟩,
        ⟨some ⟨5, false, Transfer.none⟩⟩, Visibility.Hidden, Option.none,
        GStatus.generate⟩] 0).visibility := by
  constructor
  · exact (C7_visibility_policy_amended
      [⟨"copy", "g_boxed_copy", ⟨[]⟩, ⟨Option.none⟩, Visibility.Public,
        Option.none, GStatus.generate⟩]
      LibType.other ⟨false⟩ 0 (by decide)).2.1 SType.Copy (by decide) (by decide)
  · exact (C7_visibility_policy_amended
      [⟨"name", "g_thing_name", ⟨[⟨true⟩]⟩, ⟨some ⟨5, false, Transfer.none⟩⟩,
        Visibility.Hidden, Option.none, GStatus.generate⟩]
      LibType.other ⟨false⟩ 0 (by decide)).2.2 (by decide)

end SpecialFunctions

namespace SpecialFunctions

/-! ### Claim C8: the visibility promoter -/

/-- `unhide_set` is the identity when no non-suppressed function has the
given raw name. -/
theorem unhide_set_eq_of_none (g : String) (fs : List FuncInfo)
    (h : ∀ f ∈ fs, ¬ (f.glib_name = g ∧ f.visibility ≠ Visibility.Comment)) :
    unhide_set g fs = fs := by
  induction fs with
  | nil => rfl
  | cons f fs ih =>
    simp only [unhide_set]
    rw [if_neg (h f (List.mem_cons_self f fs))]
    rw [ih (fun y hy => h y (List.mem_cons_of_mem f hy))]

/-- `unhide_set` promotes exactly the first matching non-suppressed
function. -/
theorem unhide_set_eq_of_first (g : String) (fs : List FuncInfo) (i : Nat)
    (hi : i < fs.length)
    (hm : (fnAt fs i).glib_name = g ∧ (fnAt fs i).visibility ≠ Visibility.Comment)
    (hb : ∀ j, j < i →
      ¬ ((fnAt fs j).glib_name = g ∧ (fnAt fs j).visibility ≠ Visibility.Comment)) :
    unhide_set g fs = fs.set i { fnAt fs i with visibility := Visibility.Public } := by
  induction fs generalizing i with
  | nil => simp at hi
  | cons f fs ih =>
    cases i with
    | zero =>
      have hf : fnAt (f :: fs) 0 = f := rfl
      rw [hf] at hm
      simp only [unhide_set, List.set]
      rw [if_pos hm]
      rfl
    | succ n =>
      have hf : fnAt (f :: fs) (n + 1) = fnAt fs n := rfl
      have hb0 : ¬ (f.glib_name = g ∧ f.visibility ≠ Visibility.Comment) := by
        have := hb 0 (Nat.succ_pos n)
        simpa [fnAt] using this
      simp only [unhide_set, List.set]
      rw [if_neg hb0, hf]
      rw [ih n (by simpa using hi) (by rw [hf] at hm; exact hm)
        (fun j hj => by
          have := hb (j + 1) (by omega)
          simpa [fnAt] using this)]

/-- C8: `unhide` promotes to Public the first non-suppressed function whose
raw name matches the registry trait entry for the kind, and changes nothing
when the kind has no entry or no such function exists. -/
theorem C8_visibility_promoter (fs : List FuncInfo) (specials : Infos)
    (t : SType) :
    (specials.traits t = Option.none → unhide fs specials t = fs)
    ∧ (∀ ti, specials.traits t = some ti →
        ((∀ f ∈ fs, ¬ (f.glib_name = ti.glib_name
            ∧ f.visibility ≠ Visibility.Comment)) → unhide fs specials t = fs)
        ∧ (∀ i, i < fs.length →
            ((fnAt fs i).glib_name = ti.glib_name
              ∧ (fnAt fs i).visibility ≠ Visibility.Comment) →
            (∀ j, j < i → ¬ ((fnAt fs j).glib_name = ti.glib_name
              ∧ (fnAt fs j).visibility ≠ Visibility.Comment)) →
            unhide fs specials t
              = fs.set i { fnAt fs i with visibility := Visibility.Public })) := by
  constructor
  · intro h
    simp only [unhide, h]
  · intro ti hti
    constructor
    · intro h
      simp only [unhide, hti]
      exact unhide_set_eq_of_none _ _ h
    · intro i hi hm hb
      simp only [unhide, hti]
      exact unhide_set_eq_of_first _ _ i hi hm hb

/-- C8 witness: with a `Copy` entry for raw name `g_boxed_copy`, `unhide`
promotes the first non-suppressed function of that raw name (skipping a
suppressed one), and is a no-op for a kind with no entry. -/
theorem C8_visibility_promoter_witness :
    unhide
        [⟨"copy", "g_boxed_copy", ⟨[]⟩, ⟨Option.none⟩, Visibility.Comment,
          Option.none, GStatus.generate⟩,
         ⟨"copy", "g_boxed_copy", ⟨[]⟩, ⟨Option.none⟩, Visibility.Hidden,
          Option.none, GStatus.generate⟩]
        ⟨mapInsert (fun _ => Option.none) SType.Copy ⟨"g_boxed_copy", Option.none⟩,
          fun _ => Option.none⟩
        SType.Copy
      = [⟨"copy", "g_boxed_copy", ⟨[]⟩, ⟨Option.none⟩, Visibility.Comment,
          Option.none, GStatus.generate⟩,
         ⟨"copy", "g_boxed_copy", ⟨[]⟩, ⟨Option.none⟩, Visibility.Public,
          Option.none, GStatus.generate⟩]
    ∧ unhide
        [⟨"copy", "g_boxed_copy", ⟨[]⟩, ⟨Option.none⟩, Visibility.Hidden,
          Option.none, GStatus.generate⟩]
        ⟨mapInsert (fun _ => Option.none) SType.Copy ⟨"g_boxed_copy", Option.none⟩,
          fun _ => Option.none⟩
        SType.Hash
      = [⟨"copy", "g_boxed_copy", ⟨[]⟩, ⟨Option.none⟩, Visibility.Hidden,
          Option.none, GStatus.generate⟩] := by
  constructor
  · have h := (C8_visibility_promoter
        [⟨"copy", "g_boxed_copy", ⟨[]⟩, ⟨Option.none⟩, Visibility.Comment,
          Option.none, GStatus.generate⟩,
         ⟨"copy", "g_boxed_copy", ⟨[]⟩, ⟨Option.none⟩, Visibility.Hidden,
          Option.none, GStatus.generate⟩]
        ⟨mapInsert (fun _ => Option.none) SType.Copy ⟨"g_boxed_copy", Option.none⟩,
          fun _ => Option.none⟩
        SType.Copy).2 ⟨"g_boxed_copy", Option.none⟩ rfl
    have h2 := h.2 1 (by decide) (by decide)
      (by decide)
    simpa using h2
  · exact (C8_visibility_promoter _ _ SType.Hash).1 rfl

end SpecialFunctions

namespace SpecialFunctions

/-! ### Claim C3: suppressed functions -/

/-- C3 counterexample: a function named `copy` whose visibility is
Suppressed on entry still contributes a `Copy` registry entry, so a
suppressed function is not excluded from classification. -/
theorem C3_counterexample :
    (⟨"copy", "g_boxed_copy", ⟨[]⟩, ⟨Option.none⟩, Visibility.Comment,
        Option.none, GStatus.generate⟩ : FuncInfo).visibility = Visibility.Comment
    ∧ (extract
        [⟨"copy", "g_boxed_copy", ⟨[]⟩, ⟨Option.none⟩, Visibility.Comment,
          Option.none, GStatus.generate⟩]
        LibType.other ⟨false⟩).2.traits SType.Copy
        = some ⟨"g_boxed_copy", Option.none⟩ := by
  constructor
  · rfl
  · decide

/-- C3 (amended): a function whose visibility is Suppressed on entry never
has its visibility changed by `extract` (though it can still contribute
registry entries). -/
theorem C3_suppressed_visibility_preserved (fs : List FuncInfo) (pt : LibType)
    (obj : GObject) (i : Nat) (hi : i < fs.length)
    (h : (fnAt fs i).visibility = Visibility.Comment) :
    (fnAt (extract fs pt obj).1 i).visibility = Visibility.Comment := by
  rcases extract_fnAt_cases fs pt obj i hi with hc | ⟨_, hc⟩
  · rw [hc]
    exact extract_fn_comment pt obj _ h
  · rw [hc, update_func_comment _ _ (extract_fn_comment pt obj _ h)]
    exact extract_fn_comment pt obj _ h

/-- C3 witness: the suppressed `copy` function keeps its Suppressed
visibility through `extract`. -/
theorem C3_suppressed_visibility_preserved_witness :
    (fnAt [⟨"copy", "g_boxed_copy", ⟨[]⟩, ⟨Option.none⟩, Visibility.Comment,
        Option.none, GStatus.generate⟩] 0).visibility = Visibility.Comment
    ∧ (fnAt (extract
        [⟨"copy", "g_boxed_copy", ⟨[]⟩, ⟨Option.none⟩, Visibility.Comment,
          Option.none, GStatus.generate⟩]
        LibType.other ⟨false⟩).1 0).visibility = Visibility.Comment :=
  ⟨by decide,
   C3_suppressed_visibility_preserved _ LibType.other ⟨false⟩ 0 (by decide) (by decide)⟩

/-! ### Claim C10: the frame of `extract` -/

/-- C10: `extract` preserves the list length and order and, at every
position, every descriptor field other than the display name, the return
nullable flag and the visibility (raw name, min version, parameters,
return type and ownership transfer, generation status). -/
theorem C10_extract_frame (fs : List FuncInfo) (pt : LibType) (obj : GObject) :
    (extract fs pt obj).1.length = fs.length
    ∧ ∀ i, i < fs.length → SameFrame (fnAt fs i) (fnAt (extract fs pt obj).1 i) := by
  refine ⟨extract_length fs pt obj, fun i hi => ?_⟩
  rcases extract_fnAt_cases fs pt obj i hi with hc | ⟨_, hc⟩
  · rw [hc]
    exact extract_fn_frame pt obj _
  · rw [hc]
    exact (extract_fn_frame pt obj _).trans (update_func_frame _ _)

/-- C10 witness: the frame holds at position 0 of a singleton list. -/
theorem C10_extract_frame_witness :
    (extract [⟨"copy", "g_boxed_copy", ⟨[]⟩, ⟨Option.none⟩, Visibility.Public,
        Option.none, GStatus.generate⟩] LibType.other ⟨false⟩).1.length = 1
    ∧ SameFrame
        (fnAt [⟨"copy", "g_boxed_copy", ⟨[]⟩, ⟨Option.none⟩, Visibility.Public,
          Option.none, GStatus.generate⟩] 0)
        (fnAt (extract [⟨"copy", "g_boxed_copy", ⟨[]⟩, ⟨Option.none⟩,
          Visibility.Public, Option.none, GStatus.generate⟩]
          LibType.other ⟨false⟩).1 0) :=
  ⟨(C10_extract_frame _ LibType.other ⟨false⟩).1,
   (C10_extract_frame _ LibType.other ⟨false⟩).2 0 (by decide)⟩

end SpecialFunctions

namespace SpecialFunctions

/-! ### Claim C5: StaticStringify registration -/

/-- The detector mutation does not change whether the return transfers no
ownership. -/
theorem return_transfer_none_stringify (f : FuncInfo) (pt : LibType)
    (obj : GObject) :
    return_transfer_none (is_stringify f pt obj).2 = return_transfer_none f := by
  have h := is_stringify_transfer f pt obj
  simp only [return_transfer_none]
  cases hc : (is_stringify f pt obj).2.ret.parameter <;>
    cases hf : f.ret.parameter <;> rw [hc, hf] at h <;> simp_all

/-- `staticStringifyAt`, for an accepted function, is exactly the
no-transfer, enumeration-or-bitfield, generation-eligible condition. -/
theorem staticStringifyAt_iff (pt : LibType) (obj : GObject) (f : FuncInfo)
    (hacc : (is_stringify f pt obj).1 = true) :
    staticStringifyAt pt obj f = true
      ↔ (return_transfer_none f = true
          ∧ (pt = LibType.enumeration ∨ pt = LibType.bitfield)
          ∧ f.status.need_generate = true) := by
  simp only [staticStringifyAt, hacc, Bool.true_and, Bool.and_eq_true,
    return_transfer_none_stringify, is_stringify_status, Bool.or_eq_true,
    decide_eq_true_eq]
  exact and_assoc

/-- The stringify-functions registry is decided by the loop alone. -/
theorem extract_functions_eq (fs : List FuncInfo) (pt : LibType) (obj : GObject) :
    (extract fs pt obj).2.functions
      = (extract_loop_res fs pt obj).2.specials.functions := by
  simp only [extract, extract_loop_res]
  split
  · split
    · split
      · rfl
      · rfl
    · rfl
  · rfl

/-- C5: for a function the detector accepts, a `StaticStringify` entry under
its raw name (with its min version) exists in the registry functions map
exactly when the return transfers no ownership, the context is an
enumeration or bitfield, and the function is eligible for generation. -/
theorem C5_static_stringify (fs : List FuncInfo) (pt : LibType) (obj : GObject)
    (i : Nat) (hi : i < fs.length)
    (huniq : ∀ k, k < fs.length → k ≠ i →
      (fnAt fs k).glib_name ≠ (fnAt fs i).glib_name)
    (hacc : (is_stringify (fnAt fs i) pt obj).1 = true) :
    ((extract fs pt obj).2.functions ((fnAt fs i).glib_name)
        = some ⟨FunctionType.StaticStringify, (fnAt fs i).version⟩)
      ↔ (return_transfer_none (fnAt fs i) = true
          ∧ (pt = LibType.enumeration ∨ pt = LibType.bitfield)
          ∧ (fnAt fs i).status.need_generate = true) := by
  rw [extract_functions_eq]
  have hgo := extract_go_functions pt obj ((fnAt fs i).glib_name) fs 0
    ⟨Infos.default, false, false, Option.none⟩
  rw [show (extract_loop_res fs pt obj).2 = (extract_go pt obj fs 0
    ⟨Infos.default, false, false, Option.none⟩).2 from rfl, hgo]
  rw [← staticStringifyAt_iff pt obj (fnAt fs i) hacc]
  constructor
  · intro h
    rcases foldl_override_inv fs _ _ _ _ h with hinit | ⟨x, hx, hpx, hbx⟩
    · simp [Infos.default] at hinit
    · obtain ⟨k, hk⟩ := List.get?_of_mem hx
      have hklen : k < fs.length := (List.get?_eq_some.mp hk).1
      have hxat : fnAt fs k = x :=
        Option.some.inj ((get?_fnAt fs k hklen).symm.trans hk)
      by_cases hki : k = i
      · subst hki
        rw [hxat]
        exact hpx.1
      · exact absurd (by rw [hxat]; exact hpx.2) (huniq k hklen hki)
  · intro h
    exact foldl_override_last fs _ _ _ i (fnAt fs i) (get?_fnAt fs i hi)
      ⟨h, rfl⟩
      (fun k y hk hik => by
        have hklen : k < fs.length := (List.get?_eq_some.mp hk).1
        have hyat : fnAt fs k = y :=
          Option.some.inj ((get?_fnAt fs k hklen).symm.trans hk)
        rintro ⟨-, hg⟩
        exact huniq k hklen (by omega) (by rw [hyat]; exact hg))

/-- C5 witness: an eligible enumeration `get_name` accessor with a
no-transfer string return gets a `StaticStringify` entry under its raw
name. -/
theorem C5_static_stringify_witness :
    (is_stringify
        (fnAt [⟨"get_name", "gtk_widget_get_name", ⟨[⟨true⟩]⟩,
          ⟨some ⟨5, false, Transfer.none⟩⟩, Visibility.Public, some 3,
          GStatus.generate⟩] 0) LibType.enumeration ⟨false⟩).1 = true
    ∧ (((extract [⟨"get_name", "gtk_widget_get_name", ⟨[⟨true⟩]⟩,
          ⟨some ⟨5, false, Transfer.none⟩⟩, Visibility.Public, some 3,
          GStatus.generate⟩] LibType.enumeration ⟨false⟩).2.functions
          "gtk_widget_get_name"
        = some ⟨FunctionType.StaticStringify, some 3⟩)
      ↔ (return_transfer_none (fnAt [⟨"get_name", "gtk_widget_get_name",
            ⟨[⟨true⟩]⟩, ⟨some ⟨5, false, Transfer.none⟩⟩, Visibility.Public,
            some 3, GStatus.generate⟩] 0) = true
          ∧ (LibType.enumeration = LibType.enumeration
              ∨ LibType.enumeration = LibType.bitfield)
          ∧ (fnAt [⟨"get_name", "gtk_widget_get_name", ⟨[⟨true⟩]⟩,
              ⟨some ⟨5, false, Transfer.none⟩⟩, Visibility.Public, some 3,
              GStatus.generate⟩] 0).status.need_generate = true)) :=
  ⟨by decide,
   C5_static_stringify _ LibType.enumeration ⟨false⟩ 0 (by decide)
     (by decide) (by decide)⟩

end SpecialFunctions

namespace SpecialFunctions

/-! ### Claim C2: overwrite precedence -/

/-- C2 counterexample: `free` and `destroy` both parse to the Destroy kind,
yet with the list `[free, destroy]` the registry entry comes from the
earlier `free`, not from the later-occurring `destroy` (which is deferred
and, lacking a Clone, dropped). -/
theorem C2_counterexample :
    SType.from_str (fnAt [⟨"free", "g_free", ⟨[]⟩, ⟨Option.none⟩,
        Visibility.Public, Option.none, GStatus.generate⟩,
      ⟨"destroy", "g_destroy", ⟨[]⟩, ⟨Option.none⟩, Visibility.Public,
        Option.none, GStatus.generate⟩] 0).name = some SType.Free
    ∧ SType.from_str (fnAt [⟨"free", "g_free", ⟨[]⟩, ⟨Option.none⟩,
        Visibility.Public, Option.none, GStatus.generate⟩,
      ⟨"destroy", "g_destroy", ⟨[]⟩, ⟨Option.none⟩, Visibility.Public,
        Option.none, GStatus.generate⟩] 1).name = some SType.Free
    ∧ (extract [⟨"free", "g_free", ⟨[]⟩, ⟨Option.none⟩, Visibility.Public,
        Option.none, GStatus.generate⟩,
      ⟨"destroy", "g_destroy", ⟨[]⟩, ⟨Option.none⟩, Visibility.Public,
        Option.none, GStatus.generate⟩] LibType.other ⟨false⟩).2.traits
        SType.Free = some ⟨"g_free", Option.none⟩
    ∧ (extract [⟨"free", "g_free", ⟨[]⟩, ⟨Option.none⟩, Visibility.Public,
        Option.none, GStatus.generate⟩,
      ⟨"destroy", "g_destroy", ⟨[]⟩, ⟨Option.none⟩, Visibility.Public,
        Option.none, GStatus.generate⟩] LibType.other ⟨false⟩).2.traits
        SType.Free
      ≠ some ⟨(fnAt [⟨"free", "g_free", ⟨[]⟩, ⟨Option.none⟩, Visibility.Public,
          Option.none, GStatus.generate⟩,
        ⟨"destroy", "g_destroy", ⟨[]⟩, ⟨Option.none⟩, Visibility.Public,
          Option.none, GStatus.generate⟩] 1).glib_name,
        (fnAt [⟨"free", "g_free", ⟨[]⟩, ⟨Option.none⟩, Visibility.Public,
          Option.none, GStatus.generate⟩,
        ⟨"destroy", "g_destroy", ⟨[]⟩, ⟨Option.none⟩, Visibility.Public,
          Option.none, GStatus.generate⟩] 1).version⟩ := by
  refine ⟨by decide, by decide, by decide, by decide⟩

/-- C2 (amended): among the functions actually classified through the
vocabulary path (rejected by the stringify detector and not named
`destroy`), a later classifier of the same kind silently overwrites an
earlier one: the final entry carries the raw name and min version of the
last classifier, and `extract` completes without error. -/
theorem C2_overwrite_precedence_amended (fs : List FuncInfo) (pt : LibType)
    (obj : GObject) (t : SType) (i j : Nat) (hij : i < j) (hj : j < fs.length)
    (hci : classifiesTo pt obj (fnAt fs i) t = true)
    (hcj : classifiesTo pt obj (fnAt fs j) t = true)
    (hlast : ∀ k, k < fs.length → j < k →
      classifiesTo pt obj (fnAt fs k) t = false) :
    (extract fs pt obj).2.traits t
      = some ⟨(fnAt fs j).glib_name, (fnAt fs j).version⟩
    ∧ (extract fs pt obj).1.length = fs.length := by
  have hparse : SType.from_str (is_stringify (fnAt fs j) pt obj).2.name
      = some t := by
    have h2 := hcj
    simp only [classifiesTo, Bool.and_eq_true, decide_eq_true_eq] at h2
    exact h2.1.2
  have ht : t ≠ SType.Display := from_str_ne_display _ _ hparse
  refine ⟨?_, extract_length fs pt obj⟩
  have hgo : (extract fs pt obj).2.traits t
      = (extract_loop_res fs pt obj).2.specials.traits t := by
    by_cases htf : t = SType.Free
    · subst htf
      have hff : foundFree pt obj (fnAt fs j) = true :=
        classifiesTo_free_foundFree pt obj _ hcj
      have hany : fs.any (foundFree pt obj) = true :=
        List.any_eq_true.mpr ⟨fnAt fs j, List.get?_mem (get?_fnAt fs j hj), hff⟩
      have hfree : (extract_loop_res fs pt obj).2.has_free = true := by
        show (extract_go pt obj fs 0 _).2.has_free = true
        rw [extract_go_has_free]
        simp [hany]
      rw [extract_eq_of_not_cond fs pt obj (fun hc => hc.2 hfree)]
    · rw [extract_traits_of_ne_free fs pt obj t htf]
  rw [hgo]
  show (extract_go pt obj fs 0 _).2.specials.traits t = _
  rw [extract_go_traits pt obj t ht]
  exact foldl_override_last fs _ _ _ j (fnAt fs j) (get?_fnAt fs j hj) hcj
    (fun k y hk hjk => by
      have hklen : k < fs.length := (List.get?_eq_some.mp hk).1
      have hyat : fnAt fs k = y :=
        Option.some.inj ((get?_fnAt fs k hklen).symm.trans hk)
      rw [← hyat]
      simp [hlast k hklen hjk])

/-- C2 witness for the amended claim: two `compare` functions; the entry for
`Compare` is derived from the second. -/
theorem C2_overwrite_precedence_amended_witness :
    classifiesTo LibType.other ⟨false⟩
      (fnAt [⟨"compare", "g_cmp_a", ⟨[]⟩, ⟨Option.none⟩, Visibility.Public,
          Option.none, GStatus.generate⟩,
        ⟨"compare", "g_cmp_b", ⟨[]⟩, ⟨Option.none⟩, Visibility.Public, some 7,
          GStatus.generate⟩] 1) SType.Compare = true
    ∧ (extract [⟨"compare", "g_cmp_a", ⟨[]⟩, ⟨Option.none⟩, Visibility.Public,
          Option.none, GStatus.generate⟩,
        ⟨"compare", "g_cmp_b", ⟨[]⟩, ⟨Option.none⟩, Visibility.Public, some 7,
          GStatus.generate⟩] LibType.other ⟨false⟩).2.traits SType.Compare
        = some ⟨"g_cmp_b", some 7⟩
    ∧ (extract [⟨"compare", "g_cmp_a", ⟨[]⟩, ⟨Option.none⟩, Visibility.Public,
          Option.none, GStatus.generate⟩,
        ⟨"compare", "g_cmp_b", ⟨[]⟩, ⟨Option.none⟩, Visibility.Public, some 7,
          GStatus.generate⟩] LibType.other ⟨false⟩).1.length = 2 := by
  have h := C2_overwrite_precedence_amended
    [⟨"compare", "g_cmp_a", ⟨[]⟩, ⟨Option.none⟩, Visibility.Public,
        Option.none, GStatus.generate⟩,
      ⟨"compare", "g_cmp_b", ⟨[]⟩, ⟨Option.none⟩, Visibility.Public, some 7,
        GStatus.generate⟩] LibType.other ⟨false⟩ SType.Compare 0 1
    (by decide) (by decide) (by decide) (by decide)
    (by decide)
  exact ⟨by decide, h.1, h.2⟩

end SpecialFunctions

namespace SpecialFunctions

/-! ### Claim C1: fallback destroy resolution -/

/-- C1: with a unique deferring `destroy` function (distinct raw name,
not suppressed), the function is registered under the Destroy kind with the
Destroy visibility exactly when a `copy` classified during the pass and no
`free` did; when the condition fails, the deferred function comes out of
`extract` completely untouched. -/
theorem C1_fallback_destroy (fs : List FuncInfo) (pt : LibType) (obj : GObject)
    (d : Nat) (hd : d < fs.length)
    (hname : (fnAt fs d).name = "destroy")
    (hstr : (is_stringify (fnAt fs d) pt obj).1 = false)
    (huniq : ∀ k, k < fs.length → k ≠ d → (fnAt fs k).name ≠ "destroy")
    (hglib : ∀ k, k < fs.length → k ≠ d →
      (fnAt fs k).glib_name ≠ (fnAt fs d).glib_name)
    (hvis : (fnAt fs d).visibility ≠ Visibility.Comment) :
    (((extract fs pt obj).2.traits SType.Free
        = some ⟨(fnAt fs d).glib_name, (fnAt fs d).version⟩
      ∧ (fnAt (extract fs pt obj).1 d).visibility = Visibility.Hidden)
      ↔ (fs.any (foundCopy pt obj) = true ∧ fs.any (foundFree pt obj) = false))
    ∧ (¬ (fs.any (foundCopy pt obj) = true ∧ fs.any (foundFree pt obj) = false)
        → fnAt (extract fs pt obj).1 d = fnAt fs d) := by
  have hid : (is_stringify (fnAt fs d) pt obj).2 = fnAt fs d :=
    is_stringify_snd_of_ne _ _ _ (by rw [hname]; decide)
  have hdef : defersDestroy pt obj (fnAt fs d) = true := by
    simp [defersDestroy, hstr, hid, hname]
  have huniq2 : ∀ k y, fs.get? k = some y → k ≠ d →
      defersDestroy pt obj y = false := by
    intro k y hk hkd
    have hklen : k < fs.length := (List.get?_eq_some.mp hk).1
    have hyat : fnAt fs k = y :=
      Option.some.inj ((get?_fnAt fs k hklen).symm.trans hk)
    rw [← hyat]
    cases hdk : defersDestroy pt obj (fnAt fs k) with
    | false => rfl
    | true =>
      exact absurd (defersDestroy_char pt obj _ hdk).1 (huniq k hklen hkd)
  have hslot : (extract_loop_res fs pt obj).2.destroy
      = some ((fnAt fs d).glib_name, d) := by
    have h := extract_go_destroy_unique pt obj fs 0
      ⟨Infos.default, false, false, Option.none⟩ d (fnAt fs d)
      (get?_fnAt fs d hd) hdef huniq2
    simpa using h
  have hc_eq : (extract_loop_res fs pt obj).2.has_copy
      = fs.any (foundCopy pt obj) := by
    show (extract_go pt obj fs 0 _).2.has_copy = _
    rw [extract_go_has_copy]
    simp
  have hf_eq : (extract_loop_res fs pt obj).2.has_free
      = fs.any (foundFree pt obj) := by
    show (extract_go pt obj fs 0 _).2.has_free = _
    rw [extract_go_has_free]
    simp
  have hfd : extract_fn pt obj (fnAt fs d) = fnAt fs d := by
    rw [extract_fn_of_defer pt obj _ hdef, hid]
  have hget : (extract_loop_res fs pt obj).1.get? d = some (fnAt fs d) := by
    show (extract_go pt obj fs 0 _).1.get? d = _
    rw [extract_go_fst, List.get?_map, get?_fnAt fs d hd]
    simp [hfd]
  by_cases hcond : fs.any (foundCopy pt obj) = true
      ∧ fs.any (foundFree pt obj) = false
  · have hgocond : (extract_loop_res fs pt obj).2.has_copy = true
        ∧ ¬ (extract_loop_res fs pt obj).2.has_free = true := by
      rw [hc_eq, hf_eq]
      exact ⟨hcond.1, by simp [hcond.2]⟩
    have hfire := extract_eq_of_fire fs pt obj ((fnAt fs d).glib_name) d
      (fnAt fs d) hgocond hslot hget
    have hlen1 : d < (extract_loop_res fs pt obj).1.length := by
      show d < (extract_go pt obj fs 0 _).1.length
      rw [extract_go_length]
      exact hd
    constructor
    · constructor
      · intro _
        exact hcond
      · intro _
        constructor
        · rw [hfire]
          simp [mapInsert, update_func_version]
        · rw [hfire]
          show (fnAt ((extract_loop_res fs pt obj).1.set d _) d).visibility = _
          rw [fnAt_set_self _ _ _ hlen1, update_func_vis _ _ hvis]
          rfl
    · intro hn
      exact absurd hcond hn
  · have hgocond : ¬ ((extract_loop_res fs pt obj).2.has_copy = true
        ∧ ¬ (extract_loop_res fs pt obj).2.has_free = true) := by
      rw [hc_eq, hf_eq]
      intro hc
      exact hcond ⟨hc.1, by simpa using hc.2⟩
    have hnof := extract_eq_of_not_cond fs pt obj hgocond
    have hout : fnAt (extract fs pt obj).1 d = fnAt fs d := by
      rw [hnof]
      show fnAt (extract_go pt obj fs 0 _).1 d = _
      rw [extract_go_fst, fnAt_map fs d hd, hfd]
    refine ⟨?_, fun _ => hout⟩
    constructor
    · rintro ⟨hentry, -⟩
      exfalso
      rw [hnof] at hentry
      have hgot : (extract_loop_res fs pt obj).2.specials.traits SType.Free
          = fs.foldl
            (fun acc f => if classifiesTo pt obj f SType.Free = true
              then some ⟨f.glib_name, f.version⟩ else acc) Option.none := by
        show (extract_go pt obj fs 0 _).2.specials.traits SType.Free = _
        rw [extract_go_traits pt obj SType.Free (by decide)]
        rfl
      rw [show ((extract_loop_res fs pt obj).1,
          (extract_loop_res fs pt obj).2.specials).2
          = (extract_loop_res fs pt obj).2.specials from rfl] at hentry
      rw [hgot] at hentry
      rcases foldl_override_inv fs _ _ _ _ hentry with hinit | ⟨x, hx, hpx, hbx⟩
      · exact Option.noConfusion hinit
      · obtain ⟨k, hk⟩ := List.get?_of_mem hx
        have hklen : k < fs.length := (List.get?_eq_some.mp hk).1
        have hxat : fnAt fs k = x :=
          Option.some.inj ((get?_fnAt fs k hklen).symm.trans hk)
        have hfree : (is_stringify x pt obj).2.name = "free" :=
          classifiesTo_free_name pt obj x hpx
        have hxname : x.name = "free" := by
          rcases is_stringify_snd_name x pt obj with hn | ⟨h1, h2⟩
          · rw [hn] at hfree; exact hfree
          · rw [h2] at hfree; exact absurd hfree (by decide)
        have hkd : k ≠ d := by
          intro he
          subst he
          rw [hxat, hxname] at hname
          exact absurd hname (by decide)
        have hgx0 : (fnAt fs d).glib_name = x.glib_name := by
          have h5 := congrArg (fun o => o.map TraitInfo.glib_name) hbx
          simpa using h5
        exact absurd (by rw [hxat]; exact hgx0.symm) (hglib k hklen hkd)
    · intro hr
      exact absurd hr hcond

/-- C1 witness: with `[copy, destroy]` the deferred `destroy` is registered
under the Destroy kind and hidden. -/
theorem C1_fallback_destroy_witness :
    ((extract [⟨"copy", "g_copy", ⟨[]⟩, ⟨Option.none⟩, Visibility.Public,
        Option.none, GStatus.generate⟩,
      ⟨"destroy", "g_destroy", ⟨[]⟩, ⟨Option.none⟩, Visibility.Public, some 2,
        GStatus.generate⟩] LibType.other ⟨false⟩).2.traits SType.Free
      = some ⟨"g_destroy", some 2⟩)
    ∧ ((fnAt (extract [⟨"copy", "g_copy", ⟨[]⟩, ⟨Option.none⟩, Visibility.Public,
        Option.none, GStatus.generate⟩,
      ⟨"destroy", "g_destroy", ⟨[]⟩, ⟨Option.none⟩, Visibility.Public, some 2,
        GStatus.generate⟩] LibType.other ⟨false⟩).1 1).visibility
      = Visibility.Hidden) := by
  have h := (C1_fallback_destroy
    [⟨"copy", "g_copy", ⟨[]⟩, ⟨Option.none⟩, Visibility.Public,
        Option.none, GStatus.generate⟩,
      ⟨"destroy", "g_destroy", ⟨[]⟩, ⟨Option.none⟩, Visibility.Public, some 2,
        GStatus.generate⟩] LibType.other ⟨false⟩ 1
    (by decide) (by decide) (by decide) (by decide) (by decide)
    (by decide)).1.mpr (by decide)
  exact h

end SpecialFunctions
